import Mathlib

/-!
Verification of the MPEG-4 ALS encoder core (libavcodec/alsenc.c together with the
shared helpers of libavcodec/als.c) against its natural-language specification.

The development is a shallow embedding: the integer routines of the encoder are
translated into executable Lean functions (C `int32_t`/`uint32_t`/`uint64_t`
arithmetic becomes `Int`/`Nat` arithmetic with explicit wrapping where the C type
can wrap), and the properties claimed by the specification are stated and settled
about those functions.  C loops whose termination is not structural are given an
explicit fuel argument; every call site passes enough fuel that the fuel bound is
never the reason a loop stops, and the lemmas carry the corresponding side
conditions.  Double-precision computations of the reference code are embedded
over `ℝ`.  Lookup tables that live in als_data.h (which is not part of the
sources under inspection) are kept abstract as function parameters.
-/

set_option maxRecDepth 4000

namespace ALSEnc

/-! ## Machine-integer helpers -/

/-- Largest value of a C `int32_t`. -/
def INT32_MAX : Int := 2147483647

/-- Smallest value of a C `int32_t`. -/
def INT32_MIN : Int := -2147483648

/-- Largest value of a C `uint32_t` (used by `estimate_rice_param`). -/
def UINT32_MAX : Nat := 4294967295

/-- Conversion of an integer to C `uint32_t`: reduction modulo 2^32. -/
def u32 (x : Int) : Nat := (x % (2 : Int) ^ 32).toNat

/-- Reduction of a natural number modulo 2^32 (C `unsigned int` arithmetic). -/
def u32n (a : Nat) : Nat := a % 2 ^ 32

/-- Conversion of an integer to C `int32_t` by two's-complement wrapping. -/
def toInt32 (x : Int) : Int := (x + 2 ^ 31) % 2 ^ 32 - 2 ^ 31

/-- C `uint32_t` subtraction: (a - b) modulo 2^32. -/
def sub32 (a b : Nat) : Nat := (a + (2 ^ 32 - b % 2 ^ 32)) % 2 ^ 32

/-- C `uint64_t` subtraction: (a - b) modulo 2^64. -/
def sub64 (a b : Nat) : Nat := (a + (2 ^ 64 - b % 2 ^ 64)) % 2 ^ 64

/-- FFmpeg's av_clip: clamp a value into the interval [amin, amax]. -/
def av_clip (a amin amax : Int) : Int := if a < amin then amin else if a > amax then amax else a

/-- FFmpeg's av_log2: floor of the base-2 logarithm; 0 on input 0.  `Nat.log2`
has exactly this behaviour. -/
def av_log2 (x : Nat) : Nat := Nat.log2 x

/-- FFmpeg's av_ceil_log2, defined there as `av_log2((x - 1) << 1)`. -/
def av_ceil_log2 (x : Nat) : Nat := av_log2 ((x - 1) <<< 1)

/-- Booleans written as the 0/1 integers C uses for them. -/
def b2n (b : Bool) : Nat := if b then 1 else 0

/-! ## Rice bit counting (alsenc.c, rice_count / urice_count)

`rice_count` maps the signed value to an unsigned one with
`(unsigned)((2LL*v) ^ (int64_t)(v>>31))`; for an `int32_t` argument `v >> 31`
is the arithmetic shift yielding 0 or -1, and the final cast reduces the
64-bit result modulo 2^32. -/

/-- Embedding of the unsigned remap used by rice_count and set_sr_golomb_als. -/
def res_unsigned (v : Int) : Nat := u32 (Int.xor (2 * v) (v >>> (31 : Nat)))

/-- Embedding of rice_count (alsenc.c): bits needed for a signed Rice code. -/
def rice_count (v : Int) (k : Nat) : Nat := (res_unsigned v >>> k) + 1 + k

/-- Embedding of urice_count (alsenc.c): bits needed for an unsigned Rice code. -/
def urice_count (v : Nat) (k : Nat) : Nat := (v >>> k) + 1 + k

/-- Specification-side signed Rice bit count, written with the mathematical
zigzag map (2v for v ≥ 0, -2v-1 for v < 0) instead of C bit tricks. -/
def signed_rice_bits (v : Int) (k : Nat) : Nat :=
  ((if 0 ≤ v then 2 * v else -2 * v - 1).toNat >>> k) + 1 + k

/-! ## Block-switching tree parsing (als.c, ff_als_parse_bs_info)

The C function recurses from node n to nodes 2n+1 and 2n+2 while `n < 31` and
bit `30 - n` of `bs_info` is set; every terminating path appends the current
subdivision level.  The recursion depth is bounded because n at level L is at
least 2^L - 1 and the guard requires n < 31; the embedding makes this bound a
fuel argument, and every lemma carries the side condition `31 ≤ fuel + n`
under which the fuel can never run out before the guard fails. -/

/-- Embedding of ff_als_parse_bs_info (als.c): the pre-order list of the
subdivision levels of all leaves of the partitioning tree `bs_info`. -/
def ff_als_parse_bs_info (bs_info : Nat) : Nat → Nat → Nat → List Nat
  | 0, _, dv => [dv]
  | fuel + 1, n, dv =>
    if n < 31 && ((bs_info <<< n) &&& 0x40000000) != 0 then
      ff_als_parse_bs_info bs_info fuel (2 * n + 1) (dv + 1) ++
      ff_als_parse_bs_info bs_info fuel (2 * n + 2) (dv + 1)
    else [dv]

/-- First half of set_blocks (alsenc.c): each leaf at subdivision level d is
assigned the provisional length `frame_length >> d`. -/
def set_blocks_full_lengths (bs_info frame_length : Nat) : List Nat :=
  (ff_als_parse_bs_info bs_info 32 0 0).map (fun d => frame_length >>> d)

/-- Embedding of the truncation loop of set_blocks (alsenc.c): walk the
provisional lengths; at the first block where the remaining sample count fits,
that block is shortened to the remainder and all later blocks are dropped
(`ctx->num_blocks[c1] = b + 1`).  If the remainder never fits, the lengths are
left unchanged, exactly as in the C loop. -/
def truncate_lengths : List Nat → Nat → List Nat
  | [], _ => []
  | l :: ls, remaining =>
    if remaining ≤ l then [remaining] else l :: truncate_lengths ls (remaining - l)

/-- Embedding of the block-length assignment of set_blocks (alsenc.c): the
provisional lengths, truncated only when `frame_size != frame_length`. -/
def set_blocks_lengths (bs_info frame_length frame_size : Nat) : List Nat :=
  if frame_size ≠ frame_length then
    truncate_lengths (set_blocks_full_lengths bs_info frame_length) frame_size
  else
    set_blocks_full_lengths bs_info frame_length

/-! ## Partition merging (alsenc.c, bs_get_size / bs_set_zero / the two merges)

`GET_BS_BIT(ptr, pos)` is `(*ptr & (1 << (30 - pos))) > 0`.  The C macro is
well defined only for pos ≤ 30 (for larger pos the C shift count is negative);
all theorems below stay inside that domain. -/

/-- Embedding of the GET_BS_BIT macro (alsenc.c). -/
def GET_BS_BIT (bs_info pos : Nat) : Bool := (bs_info &&& (1 <<< (30 - pos))) != 0

/-- Embedding of bs_get_size (alsenc.c): total encoded size of the leaves of the
subtree rooted at node n, looked up in the per-node size table. -/
def bs_get_size (bs_info : Nat) (bs_sizes : Nat → Nat) : Nat → Nat → Nat
  | 0, n => bs_sizes n
  | fuel + 1, n =>
    if n < 31 && ((bs_info <<< n) &&& 0x40000000) != 0 then
      bs_get_size bs_info bs_sizes fuel (2 * n + 1) +
      bs_get_size bs_info bs_sizes fuel (2 * n + 2)
    else bs_sizes n

/-- Embedding of bs_set_zero (alsenc.c): clear the bit of node n and of all of
its descendants (the C function clears unconditionally while `n < 31`). -/
def bs_set_zero : Nat → Nat → Nat → Nat
  | 0, bs, _ => bs
  | fuel + 1, bs, n =>
    if n < 31 then
      bs_set_zero fuel (bs_set_zero fuel (bs &&& ((2 ^ 32 - 1) ^^^ (1 <<< (30 - n)))) (2 * n + 1)) (2 * n + 2)
    else bs

/-- Embedding of bs_merge_bottomup (alsenc.c).  `joint` is `c1 != c2`; `s1` and
`s2` are the two channels' size tables; the returned word is the merged
`bs_info` (for a joint pair the C code copies it to the buddy channel). -/
def bs_merge_bottomup (joint : Bool) (s1 s2 : Nat → Nat) : Nat → Nat → Nat → Nat
  | 0, bs, _ => bs
  | fuel + 1, bs, n =>
    if n < 31 && ((bs <<< n) &&& 0x40000000) != 0 then
      let a := 2 * n + 1
      let b := a + 1
      let bs1 :=
        if GET_BS_BIT bs a && GET_BS_BIT bs b then
          bs_merge_bottomup joint s1 s2 fuel (bs_merge_bottomup joint s1 s2 fuel bs a) b
        else bs
      if !GET_BS_BIT bs1 a && !GET_BS_BIT bs1 b then
        let sum_a := s1 a + (if joint then s2 a else 0)
        let sum_b := s1 b + (if joint then s2 b else 0)
        let sum_n := s1 n + (if joint then s2 n else 0)
        if sum_a + sum_b > sum_n then bs_set_zero 32 bs1 n else bs1
      else bs1
    else bs

/-- Embedding of bs_merge_fullsearch (alsenc.c). -/
def bs_merge_fullsearch (joint : Bool) (s1 s2 : Nat → Nat) : Nat → Nat → Nat → Nat
  | 0, bs, _ => bs
  | fuel + 1, bs, n =>
    if n < 31 && ((bs <<< n) &&& 0x40000000) != 0 then
      let a := 2 * n + 1
      let b := a + 1
      let bs1 := if GET_BS_BIT bs a then bs_merge_fullsearch joint s1 s2 fuel bs a else bs
      let bs2 := if GET_BS_BIT bs1 b then bs_merge_fullsearch joint s1 s2 fuel bs1 b else bs1
      let sum_a := bs_get_size bs2 s1 32 a + (if joint then bs_get_size bs2 s2 32 a else 0)
      let sum_b := bs_get_size bs2 s1 32 b + (if joint then bs_get_size bs2 s2 32 b else 0)
      let sum_n := s1 n + (if joint then s2 n else 0)
      if sum_a + sum_b > sum_n then bs_set_zero 32 bs2 n else bs2
    else bs


/-- A concrete size table with a cost tie at the root: the two children cost
4 + 6 bits, exactly the parent's 10. -/
def tie_sizes : Nat → Nat := fun n => if n = 0 then 10 else if n = 1 then 4 else 6

/-! ## Rice parameter estimation (alsenc.c, estimate_rice_param and the
rice_encode_count macro)

In the `sum > UINT32_MAX` branch the C code computes `floor(log2(x))` of an
integer through a double; since the quantity divided by `length` is far below
2^53 in every reachable configuration, the conversion to double is exact and
the result is `Nat.log2`. -/

/-- Embedding of estimate_rice_param (alsenc.c). -/
def estimate_rice_param (sum length max_param : Nat) : Nat :=
  if sum ≤ length >>> 1 then 0
  else
    let k :=
      if sum > UINT32_MAX then
        Nat.log2 (max ((sum - (length >>> 1)) / length) 1)
      else
        Nat.log2 ((sum - (length >>> 1)) / length)
    min k max_param

/-- Embedding of the rice_encode_count macro (alsenc.c):
`((n)*((k)+1))+((sum-(n>>1))>>(k))` evaluated in C `uint64_t` arithmetic,
so the inner subtraction wraps modulo 2^64 when `sum < n/2`. -/
def rice_encode_count (sum n k : Nat) : Nat := n * (k + 1) + (sub64 sum (n >>> 1) >>> k)

/-- Per-subblock accumulation from find_block_rice_params_est (alsenc.c): the
sum of the unsigned-remapped residuals of one subblock. -/
def subblock_usum (res : List Int) : Nat := (res.map res_unsigned).sum

/-- The Rice parameter find_block_rice_params_est chooses for one subblock. -/
def est_subblock_param (res : List Int) (max_param : Nat) : Nat :=
  estimate_rice_param (subblock_usum res) res.length max_param

/-- The estimated bit count find_block_rice_params_est attributes to one
subblock on the estimate path (count_algorithm = estimate). -/
def est_subblock_bits (res : List Int) (max_param : Nat) : Nat :=
  rice_encode_count (subblock_usum res) res.length (est_subblock_param res max_param)


/-- Specification-side Rice parameter formula of the claim:
`k = clip(floor(log2((S - n/2)/n)), 0, max_rice_param)`, with k = 0 when
S ≤ n/2; the inner quotient is the mathematical ratio and `Int.log 2` is the
floor of the base-2 logarithm. -/
def rice_param_spec (S n maxp : Nat) : Int :=
  if S ≤ n / 2 then 0
  else av_clip (Int.log 2 (((S - n / 2 : Nat) : ℚ) / (n : ℚ))) 0 maxp

/-! ## Constant-value and zero-LSB tests (alsenc.c, test_const_value and
test_zero_lsb)

The bitwise work of test_zero_lsb happens in `int32_t` variables; the embedding
operates on the 32-bit two's-complement patterns (`u32`) of the samples, which
carries exactly the same information.  The trailing-zero `while` loop of the C
code does not terminate when the accumulated OR is zero; the embedding gives it
fuel 33 (more than the 32 bits of the register) and returns `none` exactly when
the C loop would spin forever. -/

/-- Embedding of test_const_value (alsenc.c): whether all samples of the block
are equal, together with the first sample (the constant value). -/
def test_const_value (check_constant : Bool) (samples : List Int) : Bool × Int :=
  if check_constant then
    match samples with
    | [] => (true, 0)
    | v :: rest => (rest.all (· == v), v)
  else (false, 0)

/-- First loop of test_zero_lsb (alsenc.c): OR the samples together, returning
early (result `none`, shift 0) as soon as the running OR has bit 0 set. -/
def lsb_or_accumulate : List Int → Nat → Option Nat
  | [], common => some common
  | s :: rest, common =>
    let common1 := common ||| u32 s
    if common1 &&& 1 != 0 then none else lsb_or_accumulate rest common1

/-- Second loop of test_zero_lsb (alsenc.c): count trailing zero bits of the
accumulated OR.  `none` models non-termination of the C `while` loop (which
happens exactly when `common` is zero). -/
def lsb_count_loop : Nat → Nat → Option Nat
  | 0, _ => none
  | fuel + 1, common =>
    if common &&& 1 == 0 then (lsb_count_loop fuel (common >>> 1)).map (· + 1) else some 0

/-- Embedding of test_zero_lsb (alsenc.c): the shift_lsbs value it stores, or
`none` when the C code would loop forever (all-zero block with the test
enabled). -/
def test_zero_lsb (check_lsbs : Bool) (samples : List Int) : Option Nat :=
  if check_lsbs then
    match lsb_or_accumulate samples 0 with
    | none => some 0
    | some common => lsb_count_loop 33 common
  else some 0

/-- The prefix of find_block_params (alsenc.c) that decides whether
test_zero_lsb runs: the constant test comes first and a constant block skips
the LSB test entirely.  The second component is `none` when test_zero_lsb was
not invoked, and otherwise carries its result. -/
def find_block_params_lsb_stage (check_constant check_lsbs : Bool) (samples : List Int) :
    Bool × Option (Option Nat) :=
  if (test_const_value check_constant samples).1 then (true, none)
  else (false, some (test_zero_lsb check_lsbs samples))

/-! ## Stage configurations (alsenc.c, the nine ALSEncStage constants and the
overrides applied in als_encode_init)

Fields that the C designated initializers leave unset are zero, exactly as in
C static initialization. -/

def EC_SUB_ALGORITHM_RICE_ESTIMATE : Nat := 0
def EC_SUB_ALGORITHM_RICE_EXACT : Nat := 1
def EC_SUB_ALGORITHM_BGMC_EXACT : Nat := 2
def EC_PARAM_ALGORITHM_RICE_ESTIMATE : Nat := 0
def EC_PARAM_ALGORITHM_RICE_EXACT : Nat := 1
def EC_PARAM_ALGORITHM_BGMC_ESTIMATE : Nat := 2
def EC_PARAM_ALGORITHM_BGMC_EXACT : Nat := 3
def EC_BIT_COUNT_ALGORITHM_ESTIMATE : Nat := 0
def EC_BIT_COUNT_ALGORITHM_EXACT : Nat := 1
def ADAPT_SEARCH_ALGORITHM_VALLEY_DETECT : Nat := 0
def ADAPT_SEARCH_ALGORITHM_FULL : Nat := 1
def ADAPT_COUNT_ALGORITHM_ESTIMATE : Nat := 0
def ADAPT_COUNT_ALGORITHM_EXACT : Nat := 1
def LTP_COEFF_ALGORITHM_FIXED : Nat := 0
def LTP_COEFF_ALGORITHM_CHOLESKY : Nat := 1
def BS_ALGORITHM_FULL_SEARCH : Nat := 1
def BS_ALGORITHM_BOTTOM_UP : Nat := 0

/-- Embedding of the ALSEncStage struct (alsenc.c).  The int flags of the C
struct that are used as booleans are embedded as Bool. -/
structure ALSEncStage where
  check_constant : Bool
  check_lsbs : Bool
  adapt_order : Bool
  max_order : Nat
  sb_part : Bool
  ecsub_algorithm : Nat
  param_algorithm : Nat
  count_algorithm : Nat
  adapt_search_algorithm : Nat
  adapt_count_algorithm : Nat
  ltp_coeff_algorithm : Nat
  merge_algorithm : Nat
deriving DecidableEq

/-- stage_js_c0 (alsenc.c). -/
def stage_js_c0 : ALSEncStage :=
  { check_constant := false, check_lsbs := false, adapt_order := false, max_order := 0,
    sb_part := false,
    ecsub_algorithm := EC_SUB_ALGORITHM_RICE_ESTIMATE,
    param_algorithm := EC_PARAM_ALGORITHM_RICE_ESTIMATE,
    count_algorithm := EC_BIT_COUNT_ALGORITHM_ESTIMATE,
    adapt_search_algorithm := ADAPT_SEARCH_ALGORITHM_VALLEY_DETECT,
    adapt_count_algorithm := ADAPT_COUNT_ALGORITHM_ESTIMATE,
    ltp_coeff_algorithm := LTP_COEFF_ALGORITHM_FIXED,
    merge_algorithm := BS_ALGORITHM_BOTTOM_UP }

/-- stage_bs_c0 (alsenc.c). -/
def stage_bs_c0 : ALSEncStage := { stage_js_c0 with max_order := 4 }

/-- stage_final_c0 (alsenc.c); its initializer sets no max_order, so it is 0. -/
def stage_final_c0 : ALSEncStage := stage_js_c0

/-- stage_js_c1 (alsenc.c). -/
def stage_js_c1 : ALSEncStage :=
  { check_constant := true, check_lsbs := true, adapt_order := false, max_order := 5,
    sb_part := false,
    ecsub_algorithm := EC_SUB_ALGORITHM_RICE_ESTIMATE,
    param_algorithm := EC_PARAM_ALGORITHM_RICE_ESTIMATE,
    count_algorithm := EC_BIT_COUNT_ALGORITHM_EXACT,
    adapt_search_algorithm := ADAPT_SEARCH_ALGORITHM_VALLEY_DETECT,
    adapt_count_algorithm := ADAPT_COUNT_ALGORITHM_ESTIMATE,
    ltp_coeff_algorithm := LTP_COEFF_ALGORITHM_FIXED,
    merge_algorithm := BS_ALGORITHM_FULL_SEARCH }

/-- stage_bs_c1 (alsenc.c). -/
def stage_bs_c1 : ALSEncStage :=
  { stage_js_c1 with
    max_order := 0,
    ecsub_algorithm := EC_SUB_ALGORITHM_RICE_EXACT,
    param_algorithm := EC_PARAM_ALGORITHM_RICE_EXACT }

/-- stage_final_c1 (alsenc.c). -/
def stage_final_c1 : ALSEncStage := stage_bs_c1

/-- stage_js_c2 (alsenc.c). -/
def stage_js_c2 : ALSEncStage :=
  { check_constant := true, check_lsbs := true, adapt_order := false, max_order := 0,
    sb_part := false,
    ecsub_algorithm := EC_SUB_ALGORITHM_BGMC_EXACT,
    param_algorithm := EC_PARAM_ALGORITHM_BGMC_ESTIMATE,
    count_algorithm := EC_BIT_COUNT_ALGORITHM_EXACT,
    adapt_search_algorithm := ADAPT_SEARCH_ALGORITHM_VALLEY_DETECT,
    adapt_count_algorithm := ADAPT_COUNT_ALGORITHM_ESTIMATE,
    ltp_coeff_algorithm := LTP_COEFF_ALGORITHM_CHOLESKY,
    merge_algorithm := BS_ALGORITHM_FULL_SEARCH }

/-- stage_bs_c2 (alsenc.c). -/
def stage_bs_c2 : ALSEncStage := stage_js_c2

/-- stage_final_c2 (alsenc.c). -/
def stage_final_c2 : ALSEncStage := stage_js_c2

/-- stage_js_settings (alsenc.c), indexed by compression level. -/
def stage_js_settings : List ALSEncStage := [stage_js_c0, stage_js_c1, stage_js_c2]

/-- stage_bs_settings (alsenc.c). -/
def stage_bs_settings : List ALSEncStage := [stage_bs_c0, stage_bs_c1, stage_bs_c2]

/-- stage_final_settings (alsenc.c). -/
def stage_final_settings : List ALSEncStage := [stage_final_c0, stage_final_c1, stage_final_c2]

/-- Subset of ALSSpecificConfig consulted by the stage overrides of
als_encode_init. -/
structure StageSconf where
  adapt_order : Bool
  sb_part : Bool
  bgmc : Bool
  max_order : Nat
deriving DecidableEq

/-- Joint-stereo stage overrides applied in als_encode_init (alsenc.c). -/
def runtime_stage_js (level : Nat) (sconf : StageSconf) : ALSEncStage :=
  let stage := stage_js_settings.getD level stage_js_c0
  { stage with
    adapt_order := sconf.adapt_order, sb_part := sconf.sb_part,
    max_order := if level > 1 then sconf.max_order else min sconf.max_order stage.max_order }

/-- Block-switching stage overrides applied in als_encode_init (alsenc.c). -/
def runtime_stage_bs (level : Nat) (sconf : StageSconf) : ALSEncStage :=
  let stage := stage_bs_settings.getD level stage_bs_c0
  { stage with
    adapt_order := sconf.adapt_order, sb_part := sconf.sb_part,
    max_order := if level > 0 then sconf.max_order else min sconf.max_order stage.max_order }

/-- Final stage overrides applied in als_encode_init (alsenc.c), including the
algorithm downgrade when BGMC was requested below compression level 2. -/
def runtime_stage_final (level : Nat) (sconf : StageSconf) : ALSEncStage :=
  let stage := stage_final_settings.getD level stage_final_c0
  let stage := { stage with
    adapt_order := sconf.adapt_order, sb_part := sconf.sb_part,
    max_order := sconf.max_order }
  if sconf.bgmc ∧ level < 2 then
    { stage with
      ecsub_algorithm := EC_SUB_ALGORITHM_RICE_ESTIMATE,
      param_algorithm := EC_PARAM_ALGORITHM_BGMC_ESTIMATE }
  else stage

/-! ## PARCOR quantization (alsenc.c, quantize_single_parcor_coeff)

The function works on C doubles; the embedding uses `ℝ`.  The tables
ff_als_parcor_rice_table and ff_als_parcor_scaled_values live in als_data.h,
which is not among the inspected sources, so they are abstract here: the
structure below carries the Rice parameter column ([i][1]), the offset column
([i][0]) and the scaled-value lookup. -/

/-- Abstract interface of the PARCOR coefficient tables of als_data.h. -/
structure ParcorTables where
  rice_param : Nat → Nat → Nat
  offset : Nat → Nat → Int
  scaled_values : Nat → Int

/-- Embedding of quantize_single_parcor_coeff (alsenc.c): the 7-bit quantized
coefficient, the 21-bit reconstructed coefficient, and the Rice bit count of
the quantized value.  `sign` is the C expression `!index - index`. -/
noncomputable def quantize_single_parcor_coeff (t : ParcorTables) (coef_table : Nat)
    (parcor : ℝ) (index : Nat) : Int × Int × Nat :=
  let sign : Int := (if index = 0 then 1 else 0) - index
  let parcor1 : ℝ := if index < 2 then Real.sqrt (2 * ((sign : ℝ) * parcor + 1)) - 1 else parcor
  let q : Int := av_clip ⌊64 * parcor1⌋ (-64) 63
  let r : Int :=
    if index < 2 then sign * 32 * t.scaled_values (q + 64).toNat
    else q * 2 ^ 14 + 2 ^ 13
  let rp : Nat :=
    if index < 20 then t.rice_param coef_table index
    else if index < 127 then 2 else 1
  let off : Int :=
    if index < 20 then t.offset coef_table index
    else if index < 127 then ((index &&& 1 : Nat) : Int) else 0
  (q, r, rice_count (q - off) rp)

/-- Specification-side quantizer, written exactly as the specification states
it: companding with sign + for index 0 and sign - for index 1, plain linear
quantization from index 2 on. -/
noncomputable def parcor_quant_spec (parcor : ℝ) (index : Nat) : Int :=
  if index = 0 then av_clip ⌊64 * (Real.sqrt (2 * (parcor + 1)) - 1)⌋ (-64) 63
  else if index = 1 then av_clip ⌊64 * (Real.sqrt (2 * (-parcor + 1)) - 1)⌋ (-64) 63
  else av_clip ⌊64 * parcor⌋ (-64) 63

/-- Specification-side reconstruction: the fixed lookup (scaled by the sign and
the factor 32 it is stored with) for the two companded indices, and
`(q << 14) + (1 << 13)` from index 2 on. -/
def parcor_recon_spec (t : ParcorTables) (index : Nat) (q : Int) : Int :=
  if index < 2 then (if index = 0 then 1 else -1) * 32 * t.scaled_values (q + 64).toNat
  else q * 2 ^ 14 + 2 ^ 13

/-- Specification-side Rice parameter and offset selection: the coef_table
indexed table for index < 20, parameter 2 with offset index&1 for
20 ≤ index < 127, and parameter 1 with offset 0 from 127 on. -/
def parcor_rice_spec (t : ParcorTables) (coef_table index : Nat) : Nat × Int :=
  if index < 20 then (t.rice_param coef_table index, t.offset coef_table index)
  else if index < 127 then (2, ((index &&& 1 : Nat) : Int))
  else (1, 0)

/-! ## PARCOR to LPC conversion and residual generation (als.c,
ff_als_parcor_to_lpc; alsenc.c, calc_short_term_prediction and the fallback in
find_block_params)

ff_als_parcor_to_lpc walks index pairs (i, j) inward; each step checks the two
64-bit intermediate sums against the `int32_t` range and fails with -1 on
overflow (`none` here).  The pair loop runs at most ⌈k/2⌉ times, which the
embedding supplies as fuel.  The loop indices are C ints, and j = k-1 is -1
for k = 0, so they are embedded as `Int`. -/

/-- The pair loop of ff_als_parcor_to_lpc (als.c).  Returns the updated
coefficients and the final loop indices, or `none` on 32-bit overflow. -/
def parcor_pairs : Nat → Int → List Int → Int → Int → Option (List Int × Int × Int)
  | 0, _, cof, i, j => some (cof, i, j)
  | fuel + 1, pk, cof, i, j =>
    if i < j then
      let ci := cof.getD i.toNat 0
      let cj := cof.getD j.toNat 0
      let tmp1 := ci + ((pk * cj + 2 ^ 19) >>> (20 : Nat))
      if tmp1 > INT32_MAX ∨ tmp1 < INT32_MIN then none
      else
        let tmp2 := cj + ((pk * ci + 2 ^ 19) >>> (20 : Nat))
        if tmp2 > INT32_MAX ∨ tmp2 < INT32_MIN then none
        else parcor_pairs fuel pk ((cof.set j.toNat tmp2).set i.toNat tmp1) (i + 1) (j - 1)
    else some (cof, i, j)

/-- Embedding of ff_als_parcor_to_lpc (als.c): one conversion step for order k,
`none` on 32-bit overflow. -/
def ff_als_parcor_to_lpc (k : Nat) (par : List Int) (cof : List Int) : Option (List Int) := do
  let r ← parcor_pairs (k + 1) (par.getD k 0) cof 0 ((k : Int) - 1)
  let (cof1, i, j) := r
  let cof2 ←
    (if i = j then
      let tmp1 := cof1.getD i.toNat 0 + ((par.getD k 0 * cof1.getD j.toNat 0 + 2 ^ 19) >>> (20 : Nat))
      if tmp1 > INT32_MAX ∨ tmp1 < INT32_MIN then none else some (cof1.set i.toNat tmp1)
    else some cof1)
  some (cof2.set k (par.getD k 0))

/-- The LPC_PREDICT_SAMPLE macro (alsenc.c): 64-bit accumulation, arithmetic
shift by 20, truncating cast to `int32_t`, and the `int32_t` store of the sum
with the current sample.  `smp` is the sample lane, indexed relatively so that
history samples sit at negative indices. -/
def lpc_predict_sample (lpc : List Int) (smp : Int → Int) (n : Int) (order : Nat) : Int :=
  let y := (List.range order).foldl (fun y j => y + lpc.getD j 0 * smp (n - (j + 1))) ((2 : Int) ^ 19)
  toInt32 (smp n + toInt32 (y >>> (20 : Nat)))

/-- Input block of calc_short_term_prediction (alsenc.c). -/
structure STPInput where
  ra_block : Bool
  length : Nat
  sconf_adapt_order : Bool
  sconf_max_order : Nat
  order : Nat
  smp : Int → Int

/-- Output of calc_short_term_prediction: the log of residual writes (index and
value, in program order) plus the final coefficient buffers. -/
structure STPOutput where
  res_writes : List (Nat × Int)
  q_parcor : List Int
  r_parcor : List Int
  lpc : List Int
deriving DecidableEq

/-- The progressive-prediction loop of the random-access branch of
calc_short_term_prediction: for i = 1 .. ra_order-1 predict sample i with
order i and then run the conversion step for order i. -/
def stp_ra_loop (r_parcor : List Int) (smp : Int → Int) :
    Nat → Nat → List Int → List (Nat × Int) → Option (List (Nat × Int) × List Int × Nat)
  | 0, i, lpc, writes => some (writes, lpc, i)
  | steps + 1, i, lpc, writes =>
    let w := (i, lpc_predict_sample lpc smp i i)
    match ff_als_parcor_to_lpc i r_parcor lpc with
    | none => none
    | some lpc1 => stp_ra_loop r_parcor smp steps (i + 1) lpc1 (writes ++ [w])

/-- Embedding of calc_short_term_prediction (alsenc.c).  Mirrors the two
branches of the C function, including the reuse of the loop variable i by the
coefficient-zeroing loop of the RA branch, which makes the final residual loop
start past `sconf->max_order` when adaptive order is off. -/
def calc_short_term_prediction (inp : STPInput) (q_parcor r_parcor lpc0 : List Int) :
    Option STPOutput := do
  if inp.ra_block then
    let ra_order := min inp.order inp.length
    let w0 : List (Nat × Int) := [(0, inp.smp 0)]
    let lpc1 := (ff_als_parcor_to_lpc 0 r_parcor lpc0).getD lpc0
    let r ← stp_ra_loop r_parcor inp.smp (ra_order - 1) 1 lpc1 w0
    let (writes, lpc2, iEnd) := r
    let (q1, r1, i1) :=
      if !inp.sconf_adapt_order then
        ((List.range inp.sconf_max_order).foldl
            (fun q i => if iEnd ≤ i then q.set i 0 else q) q_parcor,
         (List.range inp.sconf_max_order).foldl
            (fun rr i => if iEnd ≤ i then rr.set i 0 else rr) r_parcor,
         max iEnd inp.sconf_max_order)
      else (q_parcor, r_parcor, iEnd)
    let tail : List (Nat × Int) := (List.range' i1 (inp.length - i1)).map
      (fun i => (i, lpc_predict_sample lpc2 inp.smp i inp.order))
    some { res_writes := writes ++ tail, q_parcor := q1, r_parcor := r1, lpc := lpc2 }
  else
    let lpc2 ← (List.range inp.order).foldlM
      (fun lpc j => ff_als_parcor_to_lpc j r_parcor lpc) lpc0
    let writes : List (Nat × Int) := (List.range inp.length).map
      (fun i => (i, lpc_predict_sample lpc2 inp.smp i inp.order))
    some { res_writes := writes, q_parcor := q_parcor, r_parcor := r_parcor, lpc := lpc2 }

/-- Embedding of quantize_parcor_coeffs (alsenc.c): quantize each coefficient
in order, writing the 7-bit and 21-bit buffers and the cumulative bit counts
(bits_parcor_coeff[0] = 0). -/
noncomputable def quantize_parcor_coeffs (t : ParcorTables) (coef_table : Nat)
    (parcor : List ℝ) (q_parcor r_parcor : List Int) : List Int × List Int × List Nat :=
  let step := fun (st : List Int × List Int × List Nat × Nat) (p : ℝ) =>
    let (q, r, bits) := quantize_single_parcor_coeff t coef_table p st.2.2.2
    (st.1.set st.2.2.2 q, st.2.1.set st.2.2.2 r,
     st.2.2.1 ++ [st.2.2.1.getLastD 0 + bits], st.2.2.2 + 1)
  let out := parcor.foldl step (q_parcor, r_parcor, [0], 0)
  (out.1, out.2.1, out.2.2.1)

/-- Result of the residual-generation step of find_block_params (alsenc.c). -/
structure ResidualStageOut where
  opt_order : Nat
  fallback_taken : Bool
  fallback_parcor : List ℝ
  retry_order : Option Nat
  stp : Option STPOutput

/-- Embedding of the residual-generation step of find_block_params (alsenc.c):
run calc_short_term_prediction at the chosen order; if the PARCOR to LPC
conversion overflowed, reduce opt_order to 1 only when the current stage uses
adaptive order, allocate a fresh coefficient array whose first entry is the
preset -0.9 (the C `memset` zeroes only the first element, so the remaining
entries are the uninitialized values modelled by `garbage`), requantize, and
run the prediction again. -/
noncomputable def find_block_params_residual_stage
    (stage_adapt_order : Bool) (sconf_adapt_order : Bool) (sconf_max_order : Nat)
    (t : ParcorTables) (coef_table : Nat)
    (ra_block : Bool) (length : Nat) (opt_order : Nat)
    (smp : Int → Int) (q_parcor r_parcor lpc : List Int)
    (garbage : Nat → ℝ) : ResidualStageOut :=
  if opt_order ≠ 0 then
    match calc_short_term_prediction
        ⟨ra_block, length, sconf_adapt_order, sconf_max_order, opt_order, smp⟩
        q_parcor r_parcor lpc with
    | some out =>
        { opt_order := opt_order, fallback_taken := false, fallback_parcor := [],
          retry_order := none, stp := some out }
    | none =>
        let opt_order1 := if stage_adapt_order then 1 else opt_order
        let parcor : List ℝ := -0.9 :: (List.range (opt_order1 - 1)).map (fun i => garbage (i + 1))
        let quant := quantize_parcor_coeffs t coef_table parcor q_parcor r_parcor
        let retry := calc_short_term_prediction
          ⟨ra_block, length, sconf_adapt_order, sconf_max_order, opt_order1, smp⟩
          quant.1 quant.2.1 lpc
        { opt_order := opt_order1, fallback_taken := true, fallback_parcor := parcor,
          retry_order := some opt_order1, stp := retry }
  else
    { opt_order := opt_order, fallback_taken := false, fallback_parcor := [],
      retry_order := none, stp := none }

/-! ## The bitstream writer (alsenc.c, put_bits machinery, write_block and
write_frame)

A PutBitContext is embedded as the list of bits written so far together with
the capacity `size_in_bits`; `put_bits_count` is the number of written bits.
The OVERFLOW_PROTECT / PUT_BITS_SAFE macros compare the count plus the next
write against the capacity and make the writer fail (C return value -1,
embedded as `none`).  `flush_put_bits` pads the buffered partial byte with
zero bits, after which the written length is a whole number of bytes. -/

/-- Embedding of PutBitContext. -/
structure PutBitContext where
  bits : List Bool
  size_in_bits : Nat
deriving DecidableEq

/-- Embedding of put_bits_count. -/
def put_bits_count (pb : PutBitContext) : Nat := pb.bits.length

/-- The n-bit big-endian bit pattern of a value, as put_bits emits it. -/
def nat_bits (n v : Nat) : List Bool := (List.range n).map (fun j => v.testBit (n - 1 - j))

/-- Embedding of put_bits: append the low n bits of the value, MSB first. -/
def put_bits (pb : PutBitContext) (n v : Nat) : PutBitContext :=
  { pb with bits := pb.bits ++ nat_bits n v }

/-- Embedding of put_sbits: put_bits of the value masked to n bits. -/
def put_sbits (pb : PutBitContext) (n : Nat) (v : Int) : PutBitContext :=
  put_bits pb n (u32 v &&& (2 ^ n - 1))

/-- Embedding of put_bits32. -/
def put_bits32 (pb : PutBitContext) (v : Nat) : PutBitContext := put_bits pb 32 (u32n v)

/-- The test of the OVERFLOW_PROTECT macro (alsenc.c). -/
def overflow_check (pb : PutBitContext) (bits : Nat) : Bool :=
  put_bits_count pb + bits > pb.size_in_bits

/-- The PUT_BITS_SAFE macro (alsenc.c): overflow-protected put_bits. -/
def put_bits_safe (pb : PutBitContext) (n v : Nat) : Option PutBitContext :=
  if overflow_check pb n then none else some (put_bits pb n v)

/-- Embedding of avpriv_align_put_bits: pad with zero bits to a byte boundary. -/
def avpriv_align_put_bits (pb : PutBitContext) : PutBitContext :=
  put_bits pb ((8 - put_bits_count pb % 8) % 8) 0

/-- Embedding of flush_put_bits: the partial last byte is written out padded
with zero bits. -/
def flush_put_bits (pb : PutBitContext) : PutBitContext := avpriv_align_put_bits pb

/-- The quotient-emitting loop of golomb_write_quotient (alsenc.c): chunks of
31 one bits while q exceeds 31, then `((1<<q)-1)^1`, i.e. q-1 ones and a
terminating zero.  The fuel is the initial q, far above the chunk count. -/
def put_ones_loop : Nat → Nat → PutBitContext → PutBitContext
  | 0, q, pb => put_bits pb q (((1 <<< q) - 1) ^^^ 1)
  | fuel + 1, q, pb =>
    if q > 31 then put_ones_loop fuel (q - 31) (put_bits pb 31 0x7FFFFFFF)
    else put_bits pb q (((1 <<< q) - 1) ^^^ 1)

/-- Embedding of golomb_write_quotient (alsenc.c): `none` models the C return
value -1 when the unary quotient plus remainder would overflow the buffer. -/
def golomb_write_quotient (pb : PutBitContext) (v k : Nat) : Option (PutBitContext × Nat) :=
  let q0 := v >>> k
  let q := q0 + 1
  if overflow_check pb (q + k) then none
  else some (put_ones_loop q q pb, q0)

/-- Embedding of set_ur_golomb_als (alsenc.c). -/
def set_ur_golomb_als (pb : PutBitContext) (v k : Nat) : Option PutBitContext :=
  match golomb_write_quotient pb v k with
  | none => none
  | some (pb1, q0) => some (if k ≠ 0 then put_bits pb1 k (v - (q0 <<< k)) else pb1)

/-- Embedding of set_sr_golomb_als (alsenc.c).  The remainder expression
`(v0 >> 1) - ((q0-(!(v0&1))) << (k-1))` is evaluated in C `unsigned int`
arithmetic, hence the explicit 32-bit wrapping. -/
def set_sr_golomb_als (pb : PutBitContext) (v : Int) (k : Nat) : Option PutBitContext :=
  let v0 := res_unsigned v
  match golomb_write_quotient pb v0 k with
  | none => none
  | some (pb1, q0) =>
    some (if k ≠ 0 then
        put_bits pb1 k (sub32 (v0 >>> 1) (u32n ((sub32 q0 (b2n (v0 &&& 1 == 0))) <<< (k - 1))))
      else pb1)

/-- Arithmetic-coder state threaded through the BGMC encoder. -/
structure BgmcState where
  high : Nat
  low : Nat
  follow : Nat
deriving DecidableEq

/-- Modelled from the spec: the BGMC arithmetic coder entry points
ff_bgmc_encode_init / ff_bgmc_encode_msb / ff_bgmc_encode_end and the
ff_bgmc_max table live in bgmc.c / als_data.h, which are not among the
inspected sources.  The specification describes them as a table-driven
arithmetic coder that extends the bitstream and fails on buffer overflow; only
this interface is modelled, and it is kept abstract as a parameter (every
configuration exercised by a theorem below has bgmc disabled, so no theorem
depends on a particular model). -/
structure BgmcModel where
  init : BgmcState
  encode_msb : PutBitContext → List Int → Nat → Nat → Nat → Nat → Nat → Nat → BgmcState →
    Option (PutBitContext × BgmcState)
  encode_end : PutBitContext → BgmcState → Option PutBitContext
  bgmc_max : Nat → Nat

/-- Embedding of the per-symbol body of bgmc_encode_lsb (alsenc.c), which is in
the inspected sources: out-of-range MSB values escape to a signed Rice code,
in-range values emit their k low bits. -/
def bgmc_encode_lsb_go (k : Nat) (s : Nat) (abs_max high_offset low_offset : Int)
    (lsb_mask : Int) :
    List Int → Option PutBitContext → Nat → Option (Option PutBitContext × Nat)
  | [], pb, count => some (pb, count)
  | res :: rest, pb, count =>
    if (res >>> k) ≥ abs_max ∨ (res >>> k) ≤ -abs_max then
      let res1 := res + (if (res >>> k) ≥ abs_max then high_offset else low_offset)
      match pb with
      | some pbv =>
        match set_sr_golomb_als pbv res1 s with
        | none => none
        | some pb1 =>
          bgmc_encode_lsb_go k s abs_max high_offset low_offset lsb_mask rest (some pb1)
            (count + rice_count res1 s)
      | none =>
        bgmc_encode_lsb_go k s abs_max high_offset low_offset lsb_mask rest none
          (count + rice_count res1 s)
    else if k ≠ 0 then
      match pb with
      | some pbv =>
        if overflow_check pbv k then none
        else
          bgmc_encode_lsb_go k s abs_max high_offset low_offset lsb_mask rest
            (some (put_sbits pbv k (Int.land res lsb_mask))) (count + k)
      | none =>
        bgmc_encode_lsb_go k s abs_max high_offset low_offset lsb_mask rest none (count + k)
    else bgmc_encode_lsb_go k s abs_max high_offset low_offset lsb_mask rest pb count

/-- Embedding of bgmc_encode_lsb (alsenc.c).  The C shifts of the int
quantities abs_max and abs_max - 1 are written as multiplications by 2^k. -/
def bgmc_encode_lsb (pb : Option PutBitContext) (symbols : List Int) (k maxv s : Nat) :
    Option (Option PutBitContext × Nat) :=
  let lsb_mask : Int := ((1 <<< k : Nat) : Int) - 1
  let abs_max : Int := (((maxv + 1) >>> 1 : Nat) : Int)
  let high_offset : Int := -(abs_max * 2 ^ k)
  let low_offset : Int := (abs_max - 1) * 2 ^ k
  bgmc_encode_lsb_go k s abs_max high_offset low_offset lsb_mask symbols pb 0

/-! ## Block and configuration records for the writer -/

/-- Embedding of ALSLTPInfo (alsenc.c). -/
structure ALSLTPInfoE where
  use_ltp : Bool
  lag : Int
  gain : Nat → Int

/-- Embedding of ALSEntropyInfo (alsenc.c). -/
structure ALSEntropyInfoE where
  sub_blocks : Nat
  rice_param : Nat → Nat
  bgmc_param : Nat → Nat

/-- Embedding of ALSBlock (alsenc.c), restricted to the fields write_block
reads.  `cur_res` is the residual lane `cur_ptr` points into. -/
structure ALSBlockE where
  ra_block : Bool
  constant : Bool
  constant_value : Int
  length : Nat
  opt_order : Nat
  q_parcor_coeff : Nat → Int
  js_block : Bool
  shift_lsbs : Nat
  ltp_info : Bool → ALSLTPInfoE
  ent_info : Bool → ALSEntropyInfoE
  bits_adapt_order : Nat
  cur_res : List Int

/-- The ra_flag enumeration of als.h. -/
inductive RAFlag where
  | RA_FLAG_NONE
  | RA_FLAG_FRAMES
  | RA_FLAG_HEADER
deriving DecidableEq

/-- Embedding of ALSSpecificConfig (als.h), restricted to the fields the
writer consults. -/
structure ALSSpecificConfig where
  resolution : Nat
  floating : Bool
  frame_length : Nat
  ra_distance : Nat
  ra_flag : RAFlag
  adapt_order : Bool
  coef_table : Nat
  long_term_prediction : Bool
  max_order : Nat
  block_switching : Nat
  bgmc : Bool
  sb_part : Bool
  joint_stereo : Bool
  mc_coding : Bool
  rlslms : Bool
  crc_enabled : Bool

/-- The slice of ALSEncContext that write_frame and write_block read. -/
structure WriteCtx where
  sconf : ALSSpecificConfig
  bits_per_raw_sample : Nat
  sample_rate : Nat
  max_rice_param : Nat
  js_switch : Bool
  channels : Nat
  independent_bs : Nat → Bool
  num_blocks : Nat → Nat
  blocks : Nat → Nat → ALSBlockE
  bs_info : Nat → Nat
  tables : ParcorTables
  ltp_gain_flat : Nat → Nat
  bgmc_model : BgmcModel

/-- Loop of map_to_index (alsenc.c) over the 15 remaining entries of the
flattened ff_als_ltp_gain_values table, with its early returns. -/
def map_to_index_go (g : Nat → Nat) (gain : Int) : Nat → Nat → Nat → Nat → Nat
  | 0, _, best, _ => best
  | fuel + 1, i, best, min_diff =>
    let diff := ((g i : Int) - gain).natAbs
    if diff = 0 then i
    else if diff < min_diff then map_to_index_go g gain fuel (i + 1) i diff
    else best

/-- Embedding of map_to_index (alsenc.c): nearest index in the flattened LTP
gain table. -/
def map_to_index (g : Nat → Nat) (gain : Int) : Nat :=
  map_to_index_go g gain 15 1 0 (((g 0 : Int) - gain).natAbs)

/-- The random-access progressive-prediction writes at the head of the first
subblock (write_block, alsenc.c).  Returns the bit writer, the count `i` of
header residuals handled, and the advanced cursor into the residual lane (the
C pointer only advances when a residual is actually read). -/
def write_ra_prog (pb : PutBitContext) (res : List Int) (pos0 sb_length opt_order rice0 bprs max_rice : Nat) :
    Option (PutBitContext × Nat × Nat) :=
  if opt_order > 0 then
    match set_sr_golomb_als pb (res.getD pos0 0) (bprs - 4) with
    | none => none
    | some pb1 =>
      let pos1 := pos0 + 1
      if opt_order > 1 then
        let w1 : Int := if sb_length ≤ 1 then 0 else res.getD pos1 0
        let pos2 := if sb_length ≤ 1 then pos1 else pos1 + 1
        match set_sr_golomb_als pb1 w1 (min (rice0 + 3) max_rice) with
        | none => none
        | some pb2 =>
          if opt_order > 2 then
            let w2 : Int := if sb_length ≤ 2 then 0 else res.getD pos2 0
            let pos3 := if sb_length ≤ 2 then pos2 else pos2 + 1
            match set_sr_golomb_als pb2 w2 (min (rice0 + 1) max_rice) with
            | none => none
            | some pb3 => some (pb3, 3, pos3)
          else some (pb2, 2, pos2)
      else some (pb1, 1, pos1)
  else some (pb, 0, pos0)

/-- The per-subblock residual loop of write_block (alsenc.c).  The fuel is the
subblock count.  Returns the writer, the coder state, and the `start` value
left behind by the first subblock's progressive-prediction header. -/
def write_block_subblocks (ctx : WriteCtx) (block : ALSBlockE) (ent : ALSEntropyInfoE)
    (sb_length : Nat) (res : List Int) :
    Nat → Nat → Nat → Nat → PutBitContext → BgmcState → Option (PutBitContext × BgmcState × Nat)
  | 0, _, _, start, pb, st => some (pb, st, start)
  | fuel + 1, sb, pos, start, pb, st => do
    let prog ←
      if sb = 0 ∧ block.ra_block then
        write_ra_prog pb res pos sb_length block.opt_order (ent.rice_param sb)
          ctx.bits_per_raw_sample ctx.max_rice_param
      else some (pb, 0, pos)
    let (pb, i, pos) := prog
    let start := if sb = 0 ∧ block.ra_block then i else start
    if ctx.sconf.bgmc then do
      let b := av_clip (((av_ceil_log2 block.length : Int) - 3) >>> (1 : Nat)) 0 5
      let ksb := if ent.rice_param sb > b.toNat then ent.rice_param sb - b.toNat else 0
      let delta := u32n (sub32 5 (ent.rice_param sb) + ksb)
      let mx := ctx.bgmc_model.bgmc_max (ent.bgmc_param sb) >>> delta
      let r ← ctx.bgmc_model.encode_msb pb ((res.drop pos).take (sb_length - i))
        (sb_length - i) ksb delta mx (ent.rice_param sb) (ent.bgmc_param sb) st
      write_block_subblocks ctx block ent sb_length res fuel (sb + 1)
        (pos + (sb_length - i)) start r.1 r.2
    else do
      let pb ← ((res.drop pos).take (sb_length - i)).foldlM
        (fun pb v => set_sr_golomb_als pb v (ent.rice_param sb)) pb
      write_block_subblocks ctx block ent sb_length res fuel (sb + 1)
        (pos + (sb_length - i)) start pb st

/-- The second (LSB) pass of the BGMC branch of write_block (alsenc.c): the
cursor starts at `start` and the first subblock is `start` symbols short. -/
def write_block_lsb_pass (ctx : WriteCtx) (block : ALSBlockE) (ent : ALSEntropyInfoE)
    (sb_length : Nat) (res : List Int) :
    Nat → Nat → Nat → Nat → PutBitContext → Option PutBitContext
  | 0, _, _, _, pb => some pb
  | fuel + 1, sb, pos, start, pb =>
    let b := av_clip (((av_ceil_log2 block.length : Int) - 3) >>> (1 : Nat)) 0 5
    let ksb := if ent.rice_param sb > b.toNat then ent.rice_param sb - b.toNat else 0
    let delta := u32n (sub32 5 (ent.rice_param sb) + ksb)
    let mx := ctx.bgmc_model.bgmc_max (ent.bgmc_param sb) >>> delta
    match bgmc_encode_lsb (some pb) ((res.drop pos).take (sb_length - start)) ksb mx
        (ent.rice_param sb) with
    | none => none
    | some (none, _) => none
    | some (some pb1, _) =>
      write_block_lsb_pass ctx block ent sb_length res fuel (sb + 1)
        (pos + (sb_length - start)) 0 pb1

/-- Body of write_block (alsenc.c) up to the final byte alignment. -/
def write_block_body (ctx : WriteCtx) (block : ALSBlockE) (pb : PutBitContext) :
    Option PutBitContext := do
  let sconf := ctx.sconf
  let pb ← put_bits_safe pb 1 (b2n !block.constant)
  if block.constant then
    if overflow_check pb 7 then none
    else
      let pb := put_bits pb 1 (b2n (block.constant_value ≠ 0))
      let pb := put_bits pb 1 (b2n block.js_block)
      let pb := put_bits pb 5 0
      if block.constant_value ≠ 0 then
        let const_val_bits := if sconf.floating then 24 else ctx.bits_per_raw_sample
        if overflow_check pb const_val_bits then none
        else if const_val_bits = 32 then some (put_bits32 pb (u32 block.constant_value))
        else some (put_sbits pb const_val_bits block.constant_value)
      else some pb
  else
    let ltp := block.ltp_info block.js_block
    let ent := block.ent_info ltp.use_ltp
    let s := ent.rice_param
    let sx := ent.bgmc_param
    let pb ← put_bits_safe pb 1 (b2n block.js_block)
    let pb ←
      if sconf.sb_part || sconf.bgmc then
        if sconf.sb_part && sconf.bgmc then put_bits_safe pb 2 (av_log2 ent.sub_blocks)
        else put_bits_safe pb 1 (b2n (ent.sub_blocks > 1))
      else some pb
    let pb ←
      if sconf.bgmc then do
        let S := fun sb => (s sb <<< 4) ||| sx sb
        let pb ← put_bits_safe pb (8 + b2n (ctx.bits_per_raw_sample > 16)) (S 0)
        (List.range' 1 (ent.sub_blocks - 1)).foldlM
          (fun pb sb => set_sr_golomb_als pb ((S sb : Int) - S (sb - 1)) 2) pb
      else do
        let pb ← put_bits_safe pb (4 + b2n (ctx.bits_per_raw_sample > 16)) (s 0)
        (List.range' 1 (ent.sub_blocks - 1)).foldlM
          (fun pb sb => set_sr_golomb_als pb ((s sb : Int) - s (sb - 1)) 0) pb
    let pb ← put_bits_safe pb 1 (b2n (block.shift_lsbs > 0))
    let pb ← if block.shift_lsbs ≠ 0 then put_bits_safe pb 4 (block.shift_lsbs - 1) else some pb
    let pb ←
      if !sconf.rlslms then do
        let pb ←
          if sconf.adapt_order then put_bits_safe pb block.bits_adapt_order block.opt_order
          else some pb
        if sconf.coef_table = 3 then
          if overflow_check pb (block.opt_order * 7) then none
          else some ((List.range block.opt_order).foldl
            (fun pb i => put_bits pb 7 (64 + block.q_parcor_coeff i).toNat) pb)
        else do
          let pb ← (List.range (min block.opt_order 20)).foldlM
            (fun pb i => set_sr_golomb_als pb
              (block.q_parcor_coeff i - ctx.tables.offset sconf.coef_table i)
              (ctx.tables.rice_param sconf.coef_table i)) pb
          let pb ← (List.range' 20 (min block.opt_order 127 - 20)).foldlM
            (fun pb i => set_sr_golomb_als pb
              (block.q_parcor_coeff i - ((i &&& 1 : Nat) : Int)) 2) pb
          (List.range' 127 (block.opt_order - 127)).foldlM
            (fun pb i => set_sr_golomb_als pb (block.q_parcor_coeff i) 1) pb
      else some pb
    let pb ←
      if sconf.long_term_prediction then do
        let pb ← put_bits_safe pb 1 (b2n ltp.use_ltp)
        if ltp.use_ltp then do
          let ltp_lag_length := 8 + b2n (ctx.sample_rate ≥ 96000) + b2n (ctx.sample_rate ≥ 192000)
          let pb ← set_sr_golomb_als pb (ltp.gain 0 >>> (3 : Nat)) 1
          let pb ← set_sr_golomb_als pb (ltp.gain 1 >>> (3 : Nat)) 2
          let pb ← set_ur_golomb_als pb (map_to_index ctx.ltp_gain_flat (ltp.gain 2)) 2
          let pb ← set_sr_golomb_als pb (ltp.gain 3 >>> (3 : Nat)) 2
          let pb ← set_sr_golomb_als pb (ltp.gain 4 >>> (3 : Nat)) 1
          put_bits_safe pb ltp_lag_length (u32 (ltp.lag - max 4 ((block.opt_order : Int) + 1)))
        else some pb
      else some pb
    let sb_length := block.length / ent.sub_blocks
    let r ← write_block_subblocks ctx block ent sb_length block.cur_res
      ent.sub_blocks 0 0 0 pb ctx.bgmc_model.init
    let (pb, st, start) := r
    if sconf.bgmc then do
      let pb ← ctx.bgmc_model.encode_end pb st
      write_block_lsb_pass ctx block ent sb_length block.cur_res ent.sub_blocks 0 start start pb
    else some pb

/-- Embedding of write_block (alsenc.c): the body followed by the byte
alignment that runs whenever multi-channel coding is not active. -/
def write_block (ctx : WriteCtx) (block : ALSBlockE) (pb : PutBitContext) :
    Option PutBitContext := do
  let pb ← write_block_body ctx block pb
  if !ctx.sconf.mc_coding || ctx.js_switch then some (avpriv_align_put_bits pb) else some pb

/-- The block-switching info field a channel writes at the head of its frame
data (write_frame, alsenc.c). -/
def write_frame_bs_field (ctx : WriteCtx) (c : Nat) (pb : PutBitContext) :
    Option PutBitContext :=
  if ctx.sconf.block_switching ≠ 0 then
    let bs_info_len := 1 <<< max 3 ctx.sconf.block_switching
    let bsv := ctx.bs_info c
    let bsv := if ctx.sconf.joint_stereo && ctx.independent_bs c then bsv ||| (1 <<< 31) else bsv
    if overflow_check pb bs_info_len then none
    else if bs_info_len = 32 then some (put_bits32 pb bsv)
    else some (put_bits pb bs_info_len (bsv >>> (32 - bs_info_len)))
  else some pb

/-- The per-channel block loop of write_frame (alsenc.c): a failing
write_block aborts the frame with -1 (`none`). -/
def write_frame_blocks (ctx : WriteCtx) (c : Nat) (pb : PutBitContext) :
    Option PutBitContext :=
  (List.range (ctx.num_blocks c)).foldlM
    (fun pb b =>
      if ctx.independent_bs c then write_block ctx (ctx.blocks c b) pb
      else do
        let pb ← write_block ctx (ctx.blocks c b) pb
        write_block ctx (ctx.blocks (c + 1) b) pb) pb

/-- The channel loop of write_frame (alsenc.c); a dependently coded pair is
consumed in one iteration (the C loop increments c a second time). -/
def write_frame_channels (ctx : WriteCtx) : Nat → Nat → PutBitContext → Option PutBitContext
  | 0, _, pb => some pb
  | fuel + 1, c, pb =>
    if c < ctx.channels then do
      let pb ← write_frame_bs_field ctx c pb
      let pb ← write_frame_blocks ctx c pb
      write_frame_channels ctx fuel (if !ctx.independent_bs c then c + 2 else c + 1) pb
    else some pb

/-- Embedding of write_frame (alsenc.c).  ff_alloc_packet2 is modelled as a
successful allocation of `buf_size` bytes.  A `none` result is the C return
value -1; otherwise the final bit writer and the byte count `ret` are
returned.  Note that in the random-access case the code computes `ret` first
and then appends the 32-bit size word at the tail, leaving the reserved
leading word untouched. -/
def write_frame (ctx : WriteCtx) (buf_size : Nat) : Option (PutBitContext × Nat) := do
  let pb0 : PutBitContext := { bits := [], size_in_bits := buf_size * 8 }
  let pb ←
    if ctx.sconf.ra_flag = RAFlag.RA_FLAG_FRAMES ∧ ctx.sconf.ra_distance = 1 then
      if overflow_check pb0 32 then none else some (put_bits32 pb0 0)
    else some pb0
  let pb ←
    if !ctx.sconf.mc_coding || ctx.js_switch then
      write_frame_channels ctx ctx.channels 0 pb
    else some pb
  let pb := flush_put_bits pb
  let ret := put_bits_count pb >>> 3
  let pb :=
    if ctx.sconf.ra_flag = RAFlag.RA_FLAG_FRAMES ∧ ctx.sconf.ra_distance = 1 then
      flush_put_bits (put_bits32 pb ret)
    else pb
  some (pb, ret)

/-- The result handling of als_encode_frame (alsenc.c) for ra_distance < 2:
the int returned by encode_frame is stored into the local `unsigned int
encoded`, `avpkt->size` receives that unsigned value back as an int,
`*got_packet_ptr` is set to 1, and the function returns 0.  The triple is
(return value, got_packet, avpkt->size). -/
def als_encode_frame_packet (encoded : Int) : Int × Bool × Int :=
  let e : Nat := u32 encoded
  (0, true, toInt32 (e : Int))

/-- The sample-counter update of encode_frame (alsenc.c): the counter grows
only when write_frame succeeded. -/
def encode_frame_samples_update (samples : Nat) (frame_data_size : Int) (nb_samples : Nat) : Nat :=
  if 0 ≤ frame_data_size then samples + nb_samples else samples

/-! # Theorems -/

/-! ## Claim C3: partition lengths sum to the frame size -/

theorem parse_bs_nonempty (bs : Nat) :
    ∀ fuel n dv, ff_als_parse_bs_info bs fuel n dv ≠ [] := by
  intro fuel
  induction fuel with
  | zero => intro n dv; simp [ff_als_parse_bs_info]
  | succ fuel ih =>
    intro n dv
    simp only [ff_als_parse_bs_info]
    split
    · simp [ih]
    · simp

theorem parse_bs_level_le (bs : Nat) :
    ∀ fuel n dv d, d ∈ ff_als_parse_bs_info bs fuel n dv → dv ≤ d := by
  intro fuel
  induction fuel with
  | zero => intro n dv d hd; simp [ff_als_parse_bs_info] at hd; omega
  | succ fuel ih =>
    intro n dv d hd
    simp only [ff_als_parse_bs_info] at hd
    split at hd
    · rcases List.mem_append.mp hd with h | h
      · exact le_trans (by omega) (ih _ _ _ h)
      · exact le_trans (by omega) (ih _ _ _ h)
    · simp at hd; omega

theorem shiftRight_succ_add_self {N d : Nat} (h : 2 ^ (d + 1) ∣ N) :
    N >>> (d + 1) + N >>> (d + 1) = N >>> d := by
  obtain ⟨m, rfl⟩ := h
  simp only [Nat.shiftRight_eq_div_pow]
  rw [Nat.mul_div_cancel_left m (Nat.pos_pow_of_pos _ (by norm_num)), pow_succ,
    mul_assoc, Nat.mul_div_cancel_left _ (Nat.pos_pow_of_pos _ (by norm_num))]
  omega

theorem parse_bs_sum (bs N : Nat) :
    ∀ fuel n dv, 31 ≤ fuel + n →
      (∀ d ∈ ff_als_parse_bs_info bs fuel n dv, 2 ^ d ∣ N) →
      ((ff_als_parse_bs_info bs fuel n dv).map (fun d => N >>> d)).sum = N >>> dv := by
  intro fuel
  induction fuel with
  | zero =>
    intro n dv hinv hdvd
    simp [ff_als_parse_bs_info]
  | succ fuel ih =>
    intro n dv hinv hdvd
    simp only [ff_als_parse_bs_info] at hdvd ⊢
    split at hdvd
    case isTrue hguard =>
      rw [if_pos hguard]
      have hn : n < 31 := by
        have := (Bool.and_eq_true _ _).mp hguard
        simpa using this.1
      simp only [List.map_append, List.sum_append]
      have hmem : ∀ d ∈ ff_als_parse_bs_info bs fuel (2 * n + 1) (dv + 1), 2 ^ d ∣ N := by
        intro d hd
        exact hdvd d (List.mem_append.mpr (Or.inl hd))
      have hmem2 : ∀ d ∈ ff_als_parse_bs_info bs fuel (2 * n + 2) (dv + 1), 2 ^ d ∣ N := by
        intro d hd
        exact hdvd d (List.mem_append.mpr (Or.inr hd))
      rw [ih (2 * n + 1) (dv + 1) (by omega) hmem, ih (2 * n + 2) (dv + 1) (by omega) hmem2]
      have hne := parse_bs_nonempty bs fuel (2 * n + 1) (dv + 1)
      obtain ⟨d0, hd0⟩ := List.exists_mem_of_ne_nil _ hne
      have hd0le := parse_bs_level_le bs fuel (2 * n + 1) (dv + 1) d0 hd0
      have : 2 ^ (dv + 1) ∣ N :=
        dvd_trans (pow_dvd_pow 2 hd0le) (hmem d0 hd0)
      exact shiftRight_succ_add_self this
    case isFalse hguard =>
      rw [if_neg hguard]
      simp

theorem truncate_lengths_sum :
    ∀ (ls : List Nat) (r : Nat), r ≤ ls.sum → (truncate_lengths ls r).sum = r := by
  intro ls
  induction ls with
  | nil => intro r hr; simp at hr; simp [truncate_lengths, hr]
  | cons l ls ih =>
    intro r hr
    simp only [truncate_lengths]
    split
    · simp
    · simp only [List.sum_cons]
      rw [ih (r - l) (by simp [List.sum_cons] at hr; omega)]
      omega

/-- Claim C3: for every channel and frame, after the final partitioning is
chosen and set_blocks has assigned (and, for a short last frame, truncated)
the block lengths, the lengths sum to the frame's actual sample count.  The
hypotheses are the invariants the encoder maintains: every leaf level of the
tree divides the frame length (the encoder caps block_switching so that
frame_length is divisible by 2^depth), and the actual frame size never
exceeds the configured frame length. -/
theorem claim_C3_partition_sum (bs_info frame_length frame_size : Nat)
    (hdiv : ∀ d ∈ ff_als_parse_bs_info bs_info 32 0 0, 2 ^ d ∣ frame_length)
    (hle : frame_size ≤ frame_length) :
    (set_blocks_lengths bs_info frame_length frame_size).sum = frame_size := by
  have hfull : (set_blocks_full_lengths bs_info frame_length).sum = frame_length := by
    have := parse_bs_sum bs_info frame_length 32 0 0 (by omega) hdiv
    simpa [set_blocks_full_lengths] using this
  unfold set_blocks_lengths
  split
  · exact truncate_lengths_sum _ _ (by rw [hfull]; exact hle)
  · rename_i h
    rw [hfull]
    omega

/-- Witness for claim C3 at a concrete split frame: bs_info with the root bit
set, frame length 4, last-frame size 3; the leaf lengths 2, 2 are truncated to
2, 1 and sum to 3. -/
theorem claim_C3_partition_sum_witness :
    (∀ d ∈ ff_als_parse_bs_info 0x40000000 32 0 0, 2 ^ d ∣ 4) ∧ 3 ≤ 4 ∧
    (set_blocks_lengths 0x40000000 4 3).sum = 3 :=
  ⟨by decide, by decide, claim_C3_partition_sum 0x40000000 4 3 (by decide) (by decide)⟩

/-! ## Claim C4: tie handling of the two merge strategies -/

theorem and_one_shl_ne_zero (x i : Nat) : ((x &&& (1 <<< i)) != 0) = x.testBit i := by
  have h1 : (1 : Nat) <<< i = 2 ^ i := by simp [Nat.shiftLeft_eq]
  rw [h1, Nat.and_two_pow]
  cases h : x.testBit i <;> simp [h, Nat.pos_pow_of_pos]

theorem merge_guard_eq (bs n : Nat) (hn : n < 31) :
    (((bs <<< n) &&& 0x40000000) != 0) = GET_BS_BIT bs n := by
  have h40 : (0x40000000 : Nat) = 1 <<< 30 := by decide
  rw [GET_BS_BIT, h40, and_one_shl_ne_zero, and_one_shl_ne_zero, Nat.testBit_shiftLeft]
  have : n ≤ 30 := by omega
  simp [this]

theorem bs_get_size_leaf (bs : Nat) (s : Nat → Nat) (fuel a : Nat)
    (ha : GET_BS_BIT bs a = false) :
    bs_get_size bs s (fuel + 1) a = s a := by
  have hcond : (decide (a < 31) && (((bs <<< a) &&& 0x40000000) != 0)) = false := by
    by_cases h31 : a < 31
    · rw [merge_guard_eq bs a h31, ha, Bool.and_false]
    · simp [h31]
  simp only [bs_get_size, hcond]
  simp

/-- Claim C4 counterexample: with child costs 4 and 6 against parent cost 10
(a tie), both merge strategies leave the root bit set, i.e. they keep the
split (finer) form instead of the merged one the claim promises. -/
theorem claim_C4_counterexample :
    tie_sizes 1 + tie_sizes 2 = tie_sizes 0 ∧
    GET_BS_BIT 0x40000000 0 = true ∧
    bs_merge_bottomup false tie_sizes tie_sizes 32 0x40000000 0 = 0x40000000 ∧
    bs_merge_fullsearch false tie_sizes tie_sizes 32 0x40000000 0 = 0x40000000 ∧
    GET_BS_BIT (bs_merge_bottomup false tie_sizes tie_sizes 32 0x40000000 0) 0 = true ∧
    GET_BS_BIT (bs_merge_fullsearch false tie_sizes tie_sizes 32 0x40000000 0) 0 = true := by
  decide

/-- Claim C4, amended: in both merge strategies, at a split node whose two
children are leaves, the children are pruned exactly when their summed bit
cost strictly exceeds the parent's; on a tie the split (children) form is
kept, not the merged one. -/
theorem claim_C4_merge_strict (joint : Bool) (s1 s2 : Nat → Nat) (fuel bs n : Nat)
    (hn : n < 15)
    (hbit : GET_BS_BIT bs n = true)
    (ha : GET_BS_BIT bs (2 * n + 1) = false)
    (hb : GET_BS_BIT bs (2 * n + 2) = false) :
    bs_merge_bottomup joint s1 s2 (fuel + 1) bs n =
      (if s1 (2 * n + 1) + (if joint then s2 (2 * n + 1) else 0) +
            (s1 (2 * n + 2) + (if joint then s2 (2 * n + 2) else 0)) >
            s1 n + (if joint then s2 n else 0)
        then bs_set_zero 32 bs n else bs) ∧
    bs_merge_fullsearch joint s1 s2 (fuel + 1) bs n =
      (if s1 (2 * n + 1) + (if joint then s2 (2 * n + 1) else 0) +
            (s1 (2 * n + 2) + (if joint then s2 (2 * n + 2) else 0)) >
            s1 n + (if joint then s2 n else 0)
        then bs_set_zero 32 bs n else bs) := by
  have hguard : (decide (n < 31) && (((bs <<< n) &&& 0x40000000) != 0)) = true := by
    rw [merge_guard_eq bs n (by omega), hbit]
    simp [show n < 31 by omega]
  have hga : bs_get_size bs s1 32 (2 * n + 1) = s1 (2 * n + 1) :=
    bs_get_size_leaf bs s1 31 _ ha
  have hgb : bs_get_size bs s1 32 (2 * n + 2) = s1 (2 * n + 2) :=
    bs_get_size_leaf bs s1 31 _ hb
  have hga2 : bs_get_size bs s2 32 (2 * n + 1) = s2 (2 * n + 1) :=
    bs_get_size_leaf bs s2 31 _ ha
  have hgb2 : bs_get_size bs s2 32 (2 * n + 2) = s2 (2 * n + 2) :=
    bs_get_size_leaf bs s2 31 _ hb
  have e2 : 2 * n + 1 + 1 = 2 * n + 2 := by omega
  constructor
  · simp only [bs_merge_bottomup, hguard]
    simp [e2, ha, hb]
  · simp only [bs_merge_fullsearch, hguard]
    simp [e2, ha, hb, hga, hgb, hga2, hgb2]

/-- Witness for the amended claim C4 at the tie instance: parent cost 10,
children 4 and 6; the result keeps the original tree. -/
theorem claim_C4_merge_strict_witness :
    (0 : Nat) < 15 ∧ GET_BS_BIT 0x40000000 0 = true ∧
    GET_BS_BIT 0x40000000 1 = false ∧ GET_BS_BIT 0x40000000 2 = false ∧
    (bs_merge_bottomup false tie_sizes tie_sizes 1 0x40000000 0 =
      (if tie_sizes 1 + (if false then tie_sizes 1 else 0) +
            (tie_sizes 2 + (if false then tie_sizes 2 else 0)) >
            tie_sizes 0 + (if false then tie_sizes 0 else 0)
        then bs_set_zero 32 0x40000000 0 else 0x40000000) ∧
     bs_merge_fullsearch false tie_sizes tie_sizes 1 0x40000000 0 =
      (if tie_sizes 1 + (if false then tie_sizes 1 else 0) +
            (tie_sizes 2 + (if false then tie_sizes 2 else 0)) >
            tie_sizes 0 + (if false then tie_sizes 0 else 0)
        then bs_set_zero 32 0x40000000 0 else 0x40000000)) :=
  ⟨by decide, by decide, by decide, by decide,
    claim_C4_merge_strict false tie_sizes tie_sizes 0 0x40000000 0 (by decide) (by decide)
      (by decide) (by decide)⟩

/-! ## Claim C8: the Rice-estimate path formulas -/

theorem estimate_rice_param_unify (sum n maxp : Nat) :
    estimate_rice_param sum n maxp =
      if sum ≤ n >>> 1 then 0 else min (Nat.log2 ((sum - n >>> 1) / n)) maxp := by
  unfold estimate_rice_param
  split
  · rfl
  · rename_i h
    split
    · rcases Nat.eq_zero_or_pos ((sum - n >>> 1) / n) with h0 | hpos
      · rw [h0]
        simp [Nat.log2]
      · rw [max_eq_left hpos]
    · rfl

theorem av_clip_of_nonneg {v m : Int} (hv : 0 ≤ v) (_hm : 0 ≤ m) :
    av_clip v 0 m = min v m := by
  unfold av_clip
  split
  · omega
  · split <;> omega

theorem int_log_div_nonpos {a n : Nat} (h : a < n) (hn : 0 < n) :
    Int.log 2 ((a : ℚ) / n) ≤ 0 := by
  have hle : ((a : ℚ) / n) ≤ 1 := by
    rw [div_le_one (by exact_mod_cast hn)]
    exact_mod_cast h.le
  rw [Int.log_of_right_le_one 2 hle]
  simp

theorem int_log_div_eq {a n : Nat} (h : n ≤ a) (hn : 0 < n) :
    Int.log 2 ((a : ℚ) / n) = Nat.log 2 (a / n) := by
  have h1 : (1 : ℚ) ≤ (a : ℚ) / n := by
    rw [le_div_iff₀ (by exact_mod_cast hn)]
    simpa using (by exact_mod_cast h : (n : ℚ) ≤ a)
  rw [Int.log_of_one_le_right 2 h1, Nat.floor_div_nat, Nat.floor_natCast]

theorem sub64_of_le {a b : Nat} (hb : b ≤ a) (ha : a < 2 ^ 64) : sub64 a b = a - b := by
  unfold sub64
  have h1 : b % 2 ^ 64 = b := Nat.mod_eq_of_lt (lt_of_le_of_lt hb ha)
  rw [h1]
  omega

/-- Claim C8: in the Rice-estimate path, for a subblock of residuals with
element count n and unsigned-value sum S (the sum of the Rice-remapped
residual magnitudes the code accumulates), the chosen parameter is
clip(floor(log2((S - n/2)/n)), 0, max_rice_param) — 0 when S ≤ n/2 — and the
estimated bit count is n(k+1) + (S - n/2) >> k (the subtraction wraps in
uint64, so the bit-count identity holds whenever S ≥ n/2). -/
theorem claim_C8_rice_estimate (res : List Int) (maxp : Nat) (hn : res ≠ [])
    (hS : subblock_usum res < 2 ^ 64) :
    ((est_subblock_param res maxp : Int) =
      rice_param_spec (subblock_usum res) res.length maxp) ∧
    (res.length / 2 ≤ subblock_usum res →
      est_subblock_bits res maxp =
        res.length * (est_subblock_param res maxp + 1) +
          ((subblock_usum res - res.length / 2) >>> est_subblock_param res maxp)) := by
  have hlen : 0 < res.length := List.length_pos.mpr hn
  constructor
  · set S := subblock_usum res with hSdef
    set n := res.length with hndef
    rw [est_subblock_param, estimate_rice_param_unify, rice_param_spec]
    have hsh : n >>> 1 = n / 2 := by simp [Nat.shiftRight_eq_div_pow]
    rw [hsh]
    split
    · rfl
    · rename_i hgt
      rcases Nat.lt_or_ge (S - n / 2) n with hlt | hge
      · have h0 : (S - n / 2) / n = 0 := Nat.div_eq_of_lt hlt
        rw [h0]
        have hclip := int_log_div_nonpos hlt hlen
        have hmaxp : (0 : Int) ≤ (maxp : Int) := by positivity
        unfold av_clip
        split
        · simp [Nat.log2]
        · rename_i hnotlt
          have hlogeq : Int.log 2 (((S - n / 2 : Nat) : ℚ) / (n : ℚ)) = 0 := by omega
          rw [hlogeq, if_neg (by omega)]
          simp [Nat.log2]
      · rw [int_log_div_eq hge hlen, av_clip_of_nonneg (by positivity) (by positivity)]
        rw [Nat.log2_eq_log_two]
        push_cast
        rfl
  · intro hge
    rw [est_subblock_bits, rice_encode_count]
    have hsh : res.length >>> 1 = res.length / 2 := by simp [Nat.shiftRight_eq_div_pow]
    rw [hsh, sub64_of_le hge hS]

/-- Witness for claim C8 at the residual subblock [5, -3, 2, 1]. -/
theorem claim_C8_rice_estimate_witness :
    ([5, -3, 2, 1] : List Int) ≠ [] ∧ subblock_usum [5, -3, 2, 1] < 2 ^ 64 ∧
    (((est_subblock_param [5, -3, 2, 1] 15 : Nat) : Int) =
      rice_param_spec (subblock_usum [5, -3, 2, 1]) 4 15 ∧
    (4 / 2 ≤ subblock_usum [5, -3, 2, 1] →
      est_subblock_bits [5, -3, 2, 1] 15 =
        4 * (est_subblock_param [5, -3, 2, 1] 15 + 1) +
          ((subblock_usum [5, -3, 2, 1] - 4 / 2) >>> est_subblock_param [5, -3, 2, 1] 15))) :=
  ⟨by decide, by decide,
    claim_C8_rice_estimate [5, -3, 2, 1] 15 (by decide) (by decide)⟩

/-! ## Claims C6 and C10: the zero-LSB test -/

theorem lor_eq_zero {m n : Nat} (h : m ||| n = 0) : m = 0 ∧ n = 0 := by
  constructor <;> apply Nat.eq_of_testBit_eq <;> intro i <;>
    have hbit := congrArg (fun x => Nat.testBit x i) h <;>
    simp [Nat.testBit_lor] at hbit <;> simp [hbit]

theorem lor_mod_two (m n : Nat) : (m ||| n) % 2 = 0 ↔ (m % 2 = 0 ∧ n % 2 = 0) := by
  rw [Nat.mod_two_eq_zero_iff_testBit_zero, Nat.mod_two_eq_zero_iff_testBit_zero,
    Nat.mod_two_eq_zero_iff_testBit_zero, Nat.testBit_lor]
  simp

theorem lor_div_two (m n : Nat) : (m ||| n) / 2 = m / 2 ||| n / 2 := by
  apply Nat.eq_of_testBit_eq
  intro i
  simp [Nat.testBit_div_two, Nat.testBit_lor]

theorem two_pow_succ_dvd_iff {z x : Nat} : 2 ^ (z + 1) ∣ x ↔ 2 ∣ x ∧ 2 ^ z ∣ x / 2 := by
  constructor
  · rintro ⟨m, rfl⟩
    refine ⟨⟨2 ^ z * m, by ring⟩, ?_⟩
    rw [pow_succ, show 2 ^ z * 2 * m = 2 * (2 ^ z * m) by ring,
      Nat.mul_div_cancel_left _ (by norm_num)]
    exact ⟨m, rfl⟩
  · rintro ⟨⟨a, ha⟩, ⟨b, hb⟩⟩
    subst ha
    rw [Nat.mul_div_cancel_left _ (by norm_num)] at hb
    exact ⟨b, by rw [hb, pow_succ]; ring⟩

theorem pow_dvd_lor_iff (z : Nat) :
    ∀ m n : Nat, (2 ^ z ∣ (m ||| n) ↔ 2 ^ z ∣ m ∧ 2 ^ z ∣ n) := by
  induction z with
  | zero => intro m n; simp
  | succ z ih =>
    intro m n
    rw [two_pow_succ_dvd_iff, two_pow_succ_dvd_iff, two_pow_succ_dvd_iff, lor_div_two, ih]
    have hpar : 2 ∣ (m ||| n) ↔ 2 ∣ m ∧ 2 ∣ n := by
      rw [Nat.dvd_iff_mod_eq_zero, Nat.dvd_iff_mod_eq_zero, Nat.dvd_iff_mod_eq_zero, lor_mod_two]
    rw [hpar]
    tauto

theorem u32_lt (x : Int) : u32 x < 2 ^ 32 := by
  unfold u32
  omega

theorem u32_ne_zero {x : Int} (h : x ≠ 0) (h1 : -2 ^ 31 ≤ x) (h2 : x < 2 ^ 31) : u32 x ≠ 0 := by
  unfold u32
  omega

theorem u32_dvd_iff {x : Int} {z : Nat} (hz : z ≤ 32) :
    (2 ^ z ∣ u32 x) ↔ ((2 : Int) ^ z ∣ x) := by
  unfold u32
  have hnn : (0 : Int) ≤ x % 2 ^ 32 := Int.emod_nonneg x (by norm_num)
  rw [← Int.natCast_dvd_natCast, Int.toNat_of_nonneg hnn]
  push_cast
  rw [show (4294967296 : Int) = 2 ^ 32 by norm_num]
  rw [Int.dvd_iff_emod_eq_zero, Int.dvd_iff_emod_eq_zero,
    Int.emod_emod_of_dvd x (pow_dvd_pow 2 hz)]

theorem lsb_count_loop_spec :
    ∀ fuel common, common ≠ 0 → common < 2 ^ fuel →
      ∃ z, lsb_count_loop fuel common = some z ∧ 2 ^ z ∣ common ∧ ¬ 2 ^ (z + 1) ∣ common := by
  intro fuel
  induction fuel with
  | zero => intro c h0 hlt; simp at hlt; omega
  | succ fuel ih =>
    intro c h0 hlt
    simp only [lsb_count_loop, Nat.and_one_is_mod]
    by_cases hpar : c % 2 = 0
    · rw [hpar]
      simp only [beq_self_eq_true, if_true]
      have hc2 : c / 2 ≠ 0 := by omega
      have hlt2 : c / 2 < 2 ^ fuel := by
        rw [pow_succ] at hlt
        omega
      obtain ⟨z, hz, hdvd, hndvd⟩ := ih (c / 2) hc2 hlt2
      refine ⟨z + 1, ?_, ?_, ?_⟩
      · rw [show c >>> 1 = c / 2 from by simp [Nat.shiftRight_eq_div_pow], hz]
        rfl
      · rw [two_pow_succ_dvd_iff]
        exact ⟨by omega, hdvd⟩
      · rw [two_pow_succ_dvd_iff]
        rintro ⟨h2, hdd⟩
        exact hndvd hdd
    · rw [if_neg (by simpa using hpar)]
      refine ⟨0, rfl, one_dvd _, ?_⟩
      rw [pow_one]
      omega

theorem lsb_or_accumulate_none :
    ∀ (samples : List Int) (c : Nat), c % 2 = 0 → lsb_or_accumulate samples c = none →
      ∃ x ∈ samples, u32 x % 2 = 1 := by
  intro samples
  induction samples with
  | nil => intro c hc h; simp [lsb_or_accumulate] at h
  | cons s rest ih =>
    intro c hc h
    simp only [lsb_or_accumulate, Nat.and_one_is_mod] at h
    by_cases hodd : (c ||| u32 s) % 2 = 0
    · rw [hodd] at h
      simp only [bne_self_eq_false, if_false] at h
      obtain ⟨x, hx, hxo⟩ := ih (c ||| u32 s) hodd h
      exact ⟨x, List.mem_cons_of_mem s hx, hxo⟩
    · refine ⟨s, List.mem_cons_self s rest, ?_⟩
      have := (not_iff_not.mpr (lor_mod_two c (u32 s))).mp hodd
      omega

theorem lsb_or_accumulate_some :
    ∀ (samples : List Int) (c common : Nat), lsb_or_accumulate samples c = some common →
      common = samples.foldl (fun a x => a ||| u32 x) c := by
  intro samples
  induction samples with
  | nil => intro c common h; simp [lsb_or_accumulate] at h; simp [h.symm]
  | cons s rest ih =>
    intro c common h
    simp only [lsb_or_accumulate] at h
    split at h
    · exact absurd h (by simp)
    · exact ih (c ||| u32 s) common h

theorem foldl_or_dvd (z : Nat) :
    ∀ (samples : List Int) (c : Nat),
      (2 ^ z ∣ samples.foldl (fun a x => a ||| u32 x) c ↔
        2 ^ z ∣ c ∧ ∀ x ∈ samples, 2 ^ z ∣ u32 x) := by
  intro samples
  induction samples with
  | nil => intro c; simp
  | cons s rest ih =>
    intro c
    simp only [List.foldl_cons]
    rw [ih (c ||| u32 s), pow_dvd_lor_iff]
    constructor
    · rintro ⟨⟨hc, hs⟩, hrest⟩
      exact ⟨hc, by
        intro x hx
        rcases List.mem_cons.mp hx with rfl | hx
        · exact hs
        · exact hrest x hx⟩
    · rintro ⟨hc, hall⟩
      exact ⟨⟨hc, hall s (List.mem_cons_self s rest)⟩,
        fun x hx => hall x (List.mem_cons_of_mem s hx)⟩

theorem foldl_or_acc_ne_zero :
    ∀ (samples : List Int) (c : Nat), c ≠ 0 →
      samples.foldl (fun a x => a ||| u32 x) c ≠ 0 := by
  intro samples
  induction samples with
  | nil => intro c hc; simpa using hc
  | cons s rest ih =>
    intro c hc
    simp only [List.foldl_cons]
    apply ih
    intro hz
    exact hc (lor_eq_zero hz).1

theorem foldl_or_ne_zero (x : Int) (hxp : u32 x ≠ 0) :
    ∀ (samples : List Int) (c : Nat), x ∈ samples →
      samples.foldl (fun a y => a ||| u32 y) c ≠ 0 := by
  intro samples
  induction samples with
  | nil => intro c hx; simp at hx
  | cons s rest ih =>
    intro c hx
    simp only [List.foldl_cons]
    rcases List.mem_cons.mp hx with rfl | hmem
    · apply foldl_or_acc_ne_zero
      intro hz
      exact hxp (lor_eq_zero hz).2
    · exact ih _ hmem

theorem foldl_or_lt (samples : List Int) :
    ∀ c : Nat, c < 2 ^ 32 → samples.foldl (fun a x => a ||| u32 x) c < 2 ^ 32 := by
  induction samples with
  | nil => intro c hc; simpa using hc
  | cons s rest ih =>
    intro c hc
    simp only [List.foldl_cons]
    exact ih _ (Nat.or_lt_two_pow hc (u32_lt s))

theorem test_const_false_nonzero {samples : List Int} (hne : samples ≠ [])
    (h : (test_const_value true samples).1 = false) : ∃ x ∈ samples, x ≠ 0 := by
  match samples with
  | [] => exact absurd rfl hne
  | v :: rest =>
    simp only [test_const_value, if_true] at h
    by_cases hv : v = 0
    · subst hv
      rcases List.all_eq_false.mp h with ⟨y, hy, hyne⟩
      refine ⟨y, List.mem_cons_of_mem _ hy, ?_⟩
      simpa using hyne
    · exact ⟨v, List.mem_cons_self v rest, hv⟩

/-- Claim C6 (code evaluated at the failing input): a non-constant 24-bit
block whose samples are 2^20 and 2^21 drives test_zero_lsb to shift_lsbs =
20, outside the claimed range [0, 15], so the later 4-bit shift_lsbs-1 field
cannot represent it. -/
theorem claim_C6_shift_lsbs_overflow :
    (test_const_value true [1048576, 2097152]).1 = false ∧
    test_zero_lsb true [1048576, 2097152] = some 20 ∧ ¬ (20 : Nat) ≤ 15 := by
  decide

/-- Claim C10: every stage configuration that enables check_lsbs also enables
check_constant (also after the overrides of als_encode_init), so every block
reaching test_zero_lsb from find_block_params with the LSB test enabled is
non-constant and hence contains a nonzero int32 sample; for such a block the
trailing-zero while loop terminates and the returned shift_lsbs is the number
of trailing zero bits common to all samples (the largest z with 2^z dividing
every sample, which some sample does not survive one further halving). -/
theorem claim_C10_lsb_stage :
    (∀ level sconf,
      ((runtime_stage_js level sconf).check_lsbs = true →
        (runtime_stage_js level sconf).check_constant = true) ∧
      ((runtime_stage_bs level sconf).check_lsbs = true →
        (runtime_stage_bs level sconf).check_constant = true) ∧
      ((runtime_stage_final level sconf).check_lsbs = true →
        (runtime_stage_final level sconf).check_constant = true)) ∧
    (∀ samples : List Int, samples ≠ [] →
      (∀ x ∈ samples, -2 ^ 31 ≤ x ∧ x < 2 ^ 31) →
      (test_const_value true samples).1 = false →
      (∃ x ∈ samples, x ≠ 0) ∧
      ∃ z, find_block_params_lsb_stage true true samples = (false, some (some z)) ∧
        (∀ x ∈ samples, ((2 : Int) ^ z) ∣ x) ∧
        (∃ x ∈ samples, ¬ ((2 : Int) ^ (z + 1)) ∣ x)) := by
  constructor
  · intro level sconf
    refine ⟨?_, ?_, ?_⟩ <;>
      rcases level with _ | _ | _ | n <;>
        simp [runtime_stage_js, runtime_stage_bs, runtime_stage_final, stage_js_settings,
          stage_bs_settings, stage_final_settings, stage_js_c0, stage_js_c1, stage_js_c2,
          stage_bs_c0, stage_bs_c1, stage_final_c1, stage_bs_c2, stage_final_c0,
          stage_final_c2, List.getD] <;>
        (try split) <;> simp
  · intro samples hne hdom hconst
    obtain ⟨x0, hx0mem, hx0⟩ := test_const_false_nonzero hne hconst
    have hx0p : u32 x0 ≠ 0 := u32_ne_zero hx0 (hdom x0 hx0mem).1 (hdom x0 hx0mem).2
    refine ⟨⟨x0, hx0mem, hx0⟩, ?_⟩
    cases hacc : lsb_or_accumulate samples 0 with
    | none =>
      obtain ⟨y, hy, hyodd⟩ := lsb_or_accumulate_none samples 0 (by norm_num) hacc
      refine ⟨0, ?_, ?_, ?_⟩
      · simp [find_block_params_lsb_stage, hconst, test_zero_lsb, hacc]
      · intro x hx
        simp
      · refine ⟨y, hy, ?_⟩
        rw [zero_add, pow_one]
        intro hdvd
        have h2 : 2 ^ 1 ∣ u32 y := (u32_dvd_iff (by norm_num)).mpr (by simpa using hdvd)
        rw [pow_one, Nat.dvd_iff_mod_eq_zero] at h2
        omega
    | some common =>
      have hcomm := lsb_or_accumulate_some samples 0 common hacc
      have hcne : common ≠ 0 := by
        rw [hcomm]
        exact foldl_or_ne_zero x0 hx0p samples 0 hx0mem
      have hclt : common < 2 ^ 32 := by
        rw [hcomm]
        exact foldl_or_lt samples 0 (by norm_num)
      have hclt33 : common < 2 ^ 33 := lt_trans hclt (by norm_num)
      obtain ⟨z, hz, hdvd, hndvd⟩ := lsb_count_loop_spec 33 common hcne hclt33
      have hz32 : z < 32 := by
        by_contra hge
        have h1 : 2 ^ 32 ≤ 2 ^ z := Nat.pow_le_pow_right (by norm_num) (by omega)
        have h2 : 2 ^ z ≤ common := Nat.le_of_dvd (by omega) hdvd
        omega
      refine ⟨z, ?_, ?_, ?_⟩
      · simp [find_block_params_lsb_stage, hconst, test_zero_lsb, hacc, hz]
      · intro x hx
        have hdx : 2 ^ z ∣ u32 x := ((foldl_or_dvd z samples 0).mp (hcomm ▸ hdvd)).2 x hx
        exact (u32_dvd_iff (by omega)).mp hdx
      · by_contra hall
        push_neg at hall
        apply hndvd
        rw [hcomm]
        exact (foldl_or_dvd (z + 1) samples 0).mpr
          ⟨dvd_zero _, fun x hx => (u32_dvd_iff (by omega)).mpr (hall x hx)⟩

/-- Witness for claim C10 on the non-constant block [2, 4]: the test
terminates with shift_lsbs = 1 (both samples even, 4 not dividing 2). -/
theorem claim_C10_lsb_stage_witness :
    ([2, 4] : List Int) ≠ [] ∧ (∀ x ∈ ([2, 4] : List Int), -2 ^ 31 ≤ x ∧ x < 2 ^ 31) ∧
    (test_const_value true [2, 4]).1 = false ∧
    ((∃ x ∈ ([2, 4] : List Int), x ≠ 0) ∧
      ∃ z, find_block_params_lsb_stage true true [2, 4] = (false, some (some z)) ∧
        (∀ x ∈ ([2, 4] : List Int), ((2 : Int) ^ z) ∣ x) ∧
        (∃ x ∈ ([2, 4] : List Int), ¬ ((2 : Int) ^ (z + 1)) ∣ x)) :=
  ⟨by decide, by decide, by decide,
    claim_C10_lsb_stage.2 [2, 4] (by decide) (by decide) (by decide)⟩

/-! ## Claim C7: PARCOR coefficient quantization -/

theorem int_xor_zero (x : Int) : Int.xor x 0 = x := by
  rcases x with m | m
  · show Int.xor (Int.ofNat m) (Int.ofNat 0) = Int.ofNat m
    simp [Int.xor]
  · show Int.xor (Int.negSucc m) (Int.ofNat 0) = Int.negSucc m
    simp [Int.xor]

theorem int_xor_neg_one (x : Int) : Int.xor x (-1) = -x - 1 := by
  rcases x with m | m
  · show Int.xor (Int.ofNat m) (Int.negSucc 0) = -(Int.ofNat m) - 1
    simp [Int.xor, Int.negSucc_eq]
    ring
  · show Int.xor (Int.negSucc m) (Int.negSucc 0) = -(Int.negSucc m) - 1
    simp [Int.xor, Int.negSucc_eq]

theorem rice_count_eq_signed {v : Int} (h1 : -2 ^ 31 ≤ v) (h2 : v < 2 ^ 31) (k : Nat) :
    rice_count v k = signed_rice_bits v k := by
  have hbase : res_unsigned v = (if 0 ≤ v then 2 * v else -2 * v - 1).toNat := by
    unfold res_unsigned u32
    by_cases hv : 0 ≤ v
    · rw [show v >>> (31 : Nat) = 0 from by
        rw [Int.shiftRight_eq_div_pow]; push_cast; omega]
      rw [int_xor_zero, if_pos hv]
      omega
    · rw [show v >>> (31 : Nat) = -1 from by
        rw [Int.shiftRight_eq_div_pow]; push_cast; omega]
      rw [int_xor_neg_one, if_neg hv]
      omega
  unfold rice_count signed_rice_bits
  rw [hbase]

theorem av_clip_range (y lo hi : Int) (h : lo ≤ hi) :
    lo ≤ av_clip y lo hi ∧ av_clip y lo hi ≤ hi := by
  unfold av_clip
  split
  · omega
  · split <;> omega

theorem av_clip64_sub_off_range {y off : Int} (hoffb : off.natAbs ≤ 2 ^ 20) :
    -2 ^ 31 ≤ av_clip y (-64) 63 - off ∧ av_clip y (-64) 63 - off < 2 ^ 31 := by
  have h := av_clip_range y (-64) 63 (by norm_num)
  omega

/-- Claim C7: quantize_single_parcor_coeff produces exactly the quantized
value, reconstruction and bit count the specification describes: companded
7-bit quantization (sign + for index 0, - for index 1), linear quantization
from index 2, table reconstruction below index 2 and (q << 14) + (1 << 13)
above, and the signed Rice bit count of q - offset with the parameter/offset
pair taken from the coef_table-indexed table for index < 20, (2, index&1) for
20 ≤ index < 127 and (1, 0) from 127 on.  The only hypothesis bounds the
offsets of the abstract coefficient table (the real als_data.h offsets are
tiny), which keeps the C unsigned remap of the bit counter lossless. -/
theorem claim_C7_quantize_parcor (t : ParcorTables) (ct : Nat) (parcor : ℝ) (index : Nat)
    (hoff : ∀ c i, (t.offset c i).natAbs ≤ 2 ^ 20) :
    quantize_single_parcor_coeff t ct parcor index =
      (parcor_quant_spec parcor index,
       parcor_recon_spec t index (parcor_quant_spec parcor index),
       signed_rice_bits (parcor_quant_spec parcor index - (parcor_rice_spec t ct index).2)
         (parcor_rice_spec t ct index).1) := by
  have hoffb := hoff ct index
  unfold quantize_single_parcor_coeff parcor_quant_spec parcor_recon_spec parcor_rice_spec
  by_cases h0 : index = 0
  · subst h0
    refine Prod.ext ?_ (Prod.ext ?_ ?_)
    · norm_num
    · norm_num
    · norm_num
      exact rice_count_eq_signed (av_clip64_sub_off_range hoffb).1
        (av_clip64_sub_off_range hoffb).2 _
  · by_cases h1 : index = 1
    · subst h1
      refine Prod.ext ?_ (Prod.ext ?_ ?_)
      · norm_num
      · norm_num
      · norm_num
        exact rice_count_eq_signed (av_clip64_sub_off_range hoffb).1
          (av_clip64_sub_off_range hoffb).2 _
    · have h2 : ¬ index < 2 := by omega
      by_cases h20 : index < 20
      · simp only [if_neg h0, if_neg h1, if_neg h2, if_pos h20]
        refine Prod.ext rfl (Prod.ext rfl ?_)
        exact rice_count_eq_signed (av_clip64_sub_off_range hoffb).1
          (av_clip64_sub_off_range hoffb).2 _
      · by_cases h127 : index < 127
        · simp only [if_neg h0, if_neg h1, if_neg h2, if_neg h20, if_pos h127]
          have hand : (((index &&& 1 : Nat) : Int)).natAbs ≤ 2 ^ 20 := by
            rw [Nat.and_one_is_mod]
            simp only [Int.natAbs_ofNat]
            omega
          refine Prod.ext rfl (Prod.ext rfl ?_)
          exact rice_count_eq_signed (av_clip64_sub_off_range hand).1
            (av_clip64_sub_off_range hand).2 _
        · simp only [if_neg h0, if_neg h1, if_neg h2, if_neg h20, if_neg h127]
          refine Prod.ext rfl (Prod.ext rfl ?_)
          exact rice_count_eq_signed (av_clip64_sub_off_range (by norm_num)).1
            (av_clip64_sub_off_range (by norm_num)).2 _

/-- Witness for claim C7 with the zero coefficient table at index 2 and
coefficient one half. -/
theorem claim_C7_quantize_parcor_witness :
    (∀ c i, ((ParcorTables.mk (fun _ _ => 0) (fun _ _ => 0) (fun _ => 0)).offset c i).natAbs ≤ 2 ^ 20) ∧
    quantize_single_parcor_coeff (ParcorTables.mk (fun _ _ => 0) (fun _ _ => 0) (fun _ => 0)) 0 (1 / 2) 2 =
      (parcor_quant_spec (1 / 2) 2,
       parcor_recon_spec (ParcorTables.mk (fun _ _ => 0) (fun _ _ => 0) (fun _ => 0)) 2
         (parcor_quant_spec (1 / 2) 2),
       signed_rice_bits (parcor_quant_spec (1 / 2) 2 -
           (parcor_rice_spec (ParcorTables.mk (fun _ _ => 0) (fun _ _ => 0) (fun _ => 0)) 0 2).2)
         (parcor_rice_spec (ParcorTables.mk (fun _ _ => 0) (fun _ _ => 0) (fun _ => 0)) 0 2).1) :=
  ⟨fun c i => by simp,
    claim_C7_quantize_parcor (ParcorTables.mk (fun _ _ => 0) (fun _ _ => 0) (fun _ => 0)) 0 (1 / 2) 2
      (fun c i => by simp)⟩

/-! ## Claim C5: the overflow fallback of find_block_params -/

/-- Claim C5 (counterexample): in a stage whose adaptive-order flag is off —
such as the first joint-stereo estimation stage — a 32-bit overflow in the
PARCOR-to-LPC conversion does not reduce the block order to 1: the fallback is
taken, but the retry keeps the original order 14.  The claimed recovery
therefore does not hold regardless of stage configuration. -/
theorem claim_C5_counterexample :
    calc_short_term_prediction ⟨false, 1, false, 14, 14, fun _ => 0⟩
        (List.replicate 14 0) (List.replicate 14 1040384) (List.replicate 14 0) = none ∧
    (find_block_params_residual_stage false true 14 ⟨fun _ _ => 0, fun _ _ => 0, fun _ => 0⟩
        0 false 1 14 (fun _ => 0) (List.replicate 14 0) (List.replicate 14 1040384)
        (List.replicate 14 0) (fun _ => 0)).fallback_taken = true ∧
    (find_block_params_residual_stage false true 14 ⟨fun _ _ => 0, fun _ _ => 0, fun _ => 0⟩
        0 false 1 14 (fun _ => 0) (List.replicate 14 0) (List.replicate 14 1040384)
        (List.replicate 14 0) (fun _ => 0)).opt_order ≠ 1 := by
  refine ⟨by decide, by decide, by decide⟩

/-- Claim C5 (amended): when the chosen order is nonzero and the PARCOR-to-LPC
conversion inside calc_short_term_prediction overflows, find_block_params takes
the fallback: the order is reduced to 1 only when the current stage has the
adaptive-order flag set (otherwise the original order is kept), the preset
PARCOR list starts with -0.9 (only its first entry is initialized), and the
prediction is retried at that same fallback order. -/
theorem claim_C5_overflow_fallback
    (stage_adapt_order sconf_adapt_order : Bool) (sconf_max_order : Nat)
    (t : ParcorTables) (ct : Nat) (ra_block : Bool) (length opt_order : Nat)
    (smp : Int → Int) (q r l : List Int) (g : Nat → ℝ)
    (h0 : opt_order ≠ 0)
    (hov : calc_short_term_prediction
        ⟨ra_block, length, sconf_adapt_order, sconf_max_order, opt_order, smp⟩ q r l = none) :
    (find_block_params_residual_stage stage_adapt_order sconf_adapt_order sconf_max_order
        t ct ra_block length opt_order smp q r l g).opt_order =
      (if stage_adapt_order then 1 else opt_order) ∧
    (find_block_params_residual_stage stage_adapt_order sconf_adapt_order sconf_max_order
        t ct ra_block length opt_order smp q r l g).fallback_taken = true ∧
    (find_block_params_residual_stage stage_adapt_order sconf_adapt_order sconf_max_order
        t ct ra_block length opt_order smp q r l g).fallback_parcor.head? = some (-0.9) ∧
    (find_block_params_residual_stage stage_adapt_order sconf_adapt_order sconf_max_order
        t ct ra_block length opt_order smp q r l g).retry_order =
      some (if stage_adapt_order then 1 else opt_order) := by
  simp only [find_block_params_residual_stage, if_pos h0, hov]
  exact ⟨trivial, trivial, rfl, trivial⟩

/-- Witness for claim C5: a concrete overflowing block in a stage with the
adaptive-order flag set, where the fallback does reduce the order to 1. -/
theorem claim_C5_overflow_fallback_witness :
    (find_block_params_residual_stage true true 14 ⟨fun _ _ => 0, fun _ _ => 0, fun _ => 0⟩
        0 false 1 14 (fun _ => 0) (List.replicate 14 0) (List.replicate 14 1040384)
        (List.replicate 14 0) (fun _ => 0)).opt_order = (if true then 1 else 14) ∧
    (find_block_params_residual_stage true true 14 ⟨fun _ _ => 0, fun _ _ => 0, fun _ => 0⟩
        0 false 1 14 (fun _ => 0) (List.replicate 14 0) (List.replicate 14 1040384)
        (List.replicate 14 0) (fun _ => 0)).fallback_taken = true ∧
    (find_block_params_residual_stage true true 14 ⟨fun _ _ => 0, fun _ _ => 0, fun _ => 0⟩
        0 false 1 14 (fun _ => 0) (List.replicate 14 0) (List.replicate 14 1040384)
        (List.replicate 14 0) (fun _ => 0)).fallback_parcor.head? = some (-0.9) ∧
    (find_block_params_residual_stage true true 14 ⟨fun _ _ => 0, fun _ _ => 0, fun _ => 0⟩
        0 false 1 14 (fun _ => 0) (List.replicate 14 0) (List.replicate 14 1040384)
        (List.replicate 14 0) (fun _ => 0)).retry_order = some (if true then 1 else 14) :=
  claim_C5_overflow_fallback true true 14 ⟨fun _ _ => 0, fun _ _ => 0, fun _ => 0⟩
    0 false 1 14 (fun _ => 0) (List.replicate 14 0) (List.replicate 14 1040384)
    (List.replicate 14 0) (fun _ => 0) (by decide) (by decide)

/-! ## Claim C2: buffer-overflow handling of the writers and als_encode_frame -/

/-- Claim C2 (code bug): on bitstream-buffer exhaustion write_block and
write_frame do return -1 (`none` here), but als_encode_frame does not surface
the failure: it stores the negative return of encode_frame into the local
`unsigned int encoded`, reports got_packet = 1 with avpkt->size = -1 and
returns 0, so the caller sees a successful encode.  A one-channel frame with a
four-sample non-constant block and a one-byte output buffer exhausts the
writer inside the first Rice code; the per-channel sample counter is at least
left unchanged on the failed frame. -/
theorem claim_C2_overflow_swallowed :
    write_block
      ⟨⟨1, false, 4, 0, RAFlag.RA_FLAG_NONE, false, 0, false, 0, 0,
          false, false, false, false, false, false⟩,
        16, 44100, 15, false, 1, fun _ => true, fun _ => 1,
        fun _ _ => ⟨false, false, 0, 4, 0, fun _ => 0, false, 0,
          fun _ => ⟨false, 0, fun _ => 0⟩, fun _ => ⟨1, fun _ => 0, fun _ => 0⟩,
          0, [5, -3, 2, 1]⟩,
        fun _ => 0, ⟨fun _ _ => 0, fun _ _ => 0, fun _ => 0⟩, fun _ => 0,
        ⟨⟨0, 0, 0⟩, fun _ _ _ _ _ _ _ _ _ => none, fun _ _ => none, fun _ => 0⟩⟩
      ⟨false, false, 0, 4, 0, fun _ => 0, false, 0,
        fun _ => ⟨false, 0, fun _ => 0⟩, fun _ => ⟨1, fun _ => 0, fun _ => 0⟩,
        0, [5, -3, 2, 1]⟩
      ⟨[], 8⟩ = none ∧
    write_frame
      ⟨⟨1, false, 4, 0, RAFlag.RA_FLAG_NONE, false, 0, false, 0, 0,
          false, false, false, false, false, false⟩,
        16, 44100, 15, false, 1, fun _ => true, fun _ => 1,
        fun _ _ => ⟨false, false, 0, 4, 0, fun _ => 0, false, 0,
          fun _ => ⟨false, 0, fun _ => 0⟩, fun _ => ⟨1, fun _ => 0, fun _ => 0⟩,
          0, [5, -3, 2, 1]⟩,
        fun _ => 0, ⟨fun _ _ => 0, fun _ _ => 0, fun _ => 0⟩, fun _ => 0,
        ⟨⟨0, 0, 0⟩, fun _ _ _ _ _ _ _ _ _ => none, fun _ _ => none, fun _ => 0⟩⟩
      1 = none ∧
    als_encode_frame_packet (-1) = (0, true, -1) ∧
    encode_frame_samples_update 100 (-1) 4 = 100 := by
  refine ⟨by decide, by decide, by decide, by decide⟩

/-! ## Claim C9: the ra_unit_size word of a random-access frame -/

/-- Claim C9 (code bug): with ra_flag = RA_FLAG_FRAMES and ra_distance = 1,
write_frame does reserve a leading 32-bit word, but after encoding that word
still holds 0: the computed frame size (here 5 bytes for one constant zero
block in one channel) is appended as a second 32-bit word at the tail of the
bitstream instead of being patched into the reserved slot, and the tail
pattern differs from the zeros left at the head. -/
theorem claim_C9_ra_unit_size :
    (write_frame
      ⟨⟨1, false, 4, 1, RAFlag.RA_FLAG_FRAMES, false, 0, false, 0, 0,
          false, false, false, false, false, false⟩,
        16, 44100, 15, false, 1, fun _ => true, fun _ => 1,
        fun _ _ => ⟨false, true, 0, 4, 0, fun _ => 0, false, 0,
          fun _ => ⟨false, 0, fun _ => 0⟩, fun _ => ⟨1, fun _ => 0, fun _ => 0⟩,
          0, []⟩,
        fun _ => 0, ⟨fun _ _ => 0, fun _ _ => 0, fun _ => 0⟩, fun _ => 0,
        ⟨⟨0, 0, 0⟩, fun _ _ _ _ _ _ _ _ _ => none, fun _ _ => none, fun _ => 0⟩⟩
      100).map Prod.snd = some 5 ∧
    (write_frame
      ⟨⟨1, false, 4, 1, RAFlag.RA_FLAG_FRAMES, false, 0, false, 0, 0,
          false, false, false, false, false, false⟩,
        16, 44100, 15, false, 1, fun _ => true, fun _ => 1,
        fun _ _ => ⟨false, true, 0, 4, 0, fun _ => 0, false, 0,
          fun _ => ⟨false, 0, fun _ => 0⟩, fun _ => ⟨1, fun _ => 0, fun _ => 0⟩,
          0, []⟩,
        fun _ => 0, ⟨fun _ _ => 0, fun _ _ => 0, fun _ => 0⟩, fun _ => 0,
        ⟨⟨0, 0, 0⟩, fun _ _ _ _ _ _ _ _ _ => none, fun _ _ => none, fun _ => 0⟩⟩
      100).map (fun p => p.1.bits.take 32) = some (List.replicate 32 false) ∧
    (write_frame
      ⟨⟨1, false, 4, 1, RAFlag.RA_FLAG_FRAMES, false, 0, false, 0, 0,
          false, false, false, false, false, false⟩,
        16, 44100, 15, false, 1, fun _ => true, fun _ => 1,
        fun _ _ => ⟨false, true, 0, 4, 0, fun _ => 0, false, 0,
          fun _ => ⟨false, 0, fun _ => 0⟩, fun _ => ⟨1, fun _ => 0, fun _ => 0⟩,
          0, []⟩,
        fun _ => 0, ⟨fun _ _ => 0, fun _ _ => 0, fun _ => 0⟩, fun _ => 0,
        ⟨⟨0, 0, 0⟩, fun _ _ _ _ _ _ _ _ _ => none, fun _ _ => none, fun _ => 0⟩⟩
      100).map (fun p => p.1.bits.drop 40) = some (nat_bits 32 5) ∧
    nat_bits 32 5 ≠ List.replicate 32 false := by
  refine ⟨by decide, by decide, by decide, by decide⟩

end ALSEnc
